import Mathlib

/-!
Verification of the BFT finality engine of the `thor` repository
(package `bft`: `engine.go`, `vote_set.go`, `persist.go`, `types.go`)
against its natural-language specification.

The Go code is shallowly embedded: machine integers become `Nat` (with an
explicit `% 2 ^ w` where the Go code can overflow), fallible calls become
`Except Err`, and the engine's mutable state (the `voted` map, the caches
and the persisted store) is threaded explicitly, so every operation of the
engine returns a `(result, new engine)` pair.  External collaborators that
are not part of this repository's sources (the chain repository, the
key/value store semantics, the params contract read and the serializer
used for the voted map) are modelled as oracle fields of `Env` or as a
concrete codec, as documented at each definition.
-/

namespace BFT

/-- Decidable equality of `Except` results, so concrete runs of the model
can be checked by `decide`. -/
instance {ε α : Type} [DecidableEq ε] [DecidableEq α] : DecidableEq (Except ε α) := fun x y =>
  match x, y with
  | .ok a, .ok b =>
    if h : a = b then .isTrue (by rw [h])
    else .isFalse (by intro hh; cases hh; exact h rfl)
  | .error a, .error b =>
    if h : a = b then .isTrue (by rw [h])
    else .isFalse (by intro hh; cases hh; exact h rfl)
  | .ok _, .error _ => .isFalse (by intro hh; cases hh)
  | .error _, .ok _ => .isFalse (by intro hh; cases hh)

/-- `block.Vote`: a vote embedded in a block header, `WIT` (witness) or
`COM` (commit).  From `block` package (`part_003`). -/
inductive Vote where
  | WIT
  | COM
deriving DecidableEq, Repr

/-- `thor.Bytes32`, a 32-byte block identifier.  Its leading 4 bytes hold
the block number big-endian (`block.Number` reads them); we model the id
as that number (`num`, the value of the first 4 bytes, `< 2 ^ 32`)
together with the remaining 28 bytes collapsed into a single `Nat`. -/
structure Bytes32 where
  num : Nat
  rest : Nat
deriving DecidableEq, Repr

/-- `thor.Bytes32.IsZero`: all bytes zero. -/
def Bytes32.isZero (b : Bytes32) : Bool :=
  b.num == 0 && b.rest == 0

/-- `block.Number(blockID)`: extract the block number from the leading
4 bytes of the id. -/
def blockNumber (b : Bytes32) : Nat := b.num

/-- A block header, restricted to the fields the BFT engine reads
(`block.Header`): parent id, the optional vote, the signer recovered from
the signature (`none` models a recovery failure), the block's own id
(`Header.ID()`, whose leading bytes carry the number). -/
structure Header where
  parentID : Bytes32
  vote : Option Vote
  signer : Option Nat
  id : Bytes32
deriving DecidableEq, Repr

/-- `Header.Number()`: inferred from the parent id, `Number(ParentID) + 1`
on `uint32` (the genesis block's crafted parent id makes this wrap to 0). -/
def Header.number (h : Header) : Nat :=
  (blockNumber h.parentID + 1) % 2 ^ 32

/-- Errors surfaced by the engine and its collaborators. -/
inductive Err where
  /-- `errConflictWithCommitted` of `types.go`. -/
  | conflictWithCommitted
  /-- "failed (to) find the block by weight" of `findCheckpointByWeight`. -/
  | weightSearch
  /-- a key/value store read of an absent key. -/
  | notFound
  /-- a missing header / block id in the chain repository. -/
  | missingBlock
  /-- failure to decode the persisted voted map (`json.Unmarshal`). -/
  | decode
  /-- failure of the params state read in `getMaxBlockProposers`. -/
  | stateRead
  /-- signer recovery failure (`Header.Signer()`). -/
  | signer
  /-- fuel exhaustion of a modelled loop; unreachable when the loop is
  given fuel covering its Go termination argument. -/
  | outOfFuel
deriving DecidableEq, Repr

/-- Association-list lookup (the model of a Go map read). -/
def lookupA {β : Type} : List (Bytes32 × β) → Bytes32 → Option β
  | [], _ => none
  | (k, v) :: rest, key => if k = key then some v else lookupA rest key

/-- Association-list erase of a key. -/
def eraseA {β : Type} : List (Bytes32 × β) → Bytes32 → List (Bytes32 × β)
  | [], _ => []
  | (k, v) :: rest, key => if k = key then eraseA rest key else (k, v) :: eraseA rest key

/-- Association-list insert/overwrite (the model of a Go map write). -/
def insertA {β : Type} (l : List (Bytes32 × β)) (key : Bytes32) (v : β) :
    List (Bytes32 × β) :=
  (key, v) :: eraseA l key

/-- The byte strings held by the store, as lists of numbers. -/
abbrev Bytes := List Nat

/-- Encoder for the persisted voted map.  Modelled from the spec: it
stands for the serializer used by `saveVoted` (`json.Marshal` of
`map[thor.Bytes32]uint32`, external to this repository); the spec only
requires a total encode, a partial decode and a round trip.  Each entry
becomes three numbers: the id's leading 4 bytes, its remaining bytes, the
weight. -/
def encodeVoted : List (Bytes32 × Nat) → Bytes
  | [] => []
  | (k, w) :: rest => k.num :: k.rest :: w :: encodeVoted rest

/-- Decoder for the persisted voted map; fails on malformed input.
Modelled from the spec: stands for `json.Unmarshal` in `loadVoted`. -/
def decodeVoted : Bytes → Option (List (Bytes32 × Nat))
  | [] => some []
  | a :: b :: c :: rest =>
    match decodeVoted rest with
    | some m => some ((⟨a, b⟩, c) :: m)
    | none => none
  | _ => none

/-- The engine's sub-store (`mainDB.NewStore("bft.engine")`).  `saveWeight`
keys entries by the 32-byte block id while the voted map lives under the
12-byte literal key `packer-voted`, so the two key spaces never collide
and are modelled as two fields.  A `none` value models an absent key. -/
structure Store where
  weightTab : List (Bytes32 × Nat)
  votedBytes : Option Bytes
deriving DecidableEq, Repr

/-- `saveWeight(putter, id, weight)` of `persist.go`. -/
def saveWeight (s : Store) (id : Bytes32) (weight : Nat) : Store :=
  { s with weightTab := insertA s.weightTab id weight }

/-- `loadWeight(getter, id)` of `persist.go`; a read of an absent key
fails (the key/value store contract, whose sources are outside `src`,
modelled from the spec's store layout: reads of never-written keys are
errors surfaced verbatim). -/
def loadWeight (s : Store) (id : Bytes32) : Except Err Nat :=
  match lookupA s.weightTab id with
  | some w => .ok w
  | none => .error .notFound

/-- `saveVoted(putter, voted)` of `persist.go`: serialize and put under
`votedKey`. -/
def saveVoted (s : Store) (voted : List (Bytes32 × Nat)) : Store :=
  { s with votedBytes := some (encodeVoted voted) }

/-- `loadVoted(getter)` of `persist.go`: read the bytes under `votedKey`
and decode them; both the read of an absent key and a decode failure are
returned as errors. -/
def loadVoted (s : Store) : Except Err (List (Bytes32 × Nat)) :=
  match s.votedBytes with
  | none => .error .notFound
  | some b =>
    match decodeVoted b with
    | some m => .ok m
    | none => .error .decode

/-- The read-only environment of one engine call: the chain repository
and the configuration constants.  The chain repository is a collaborator
outside this package; its queries are modelled from the spec's chain
contract (`GetBlockSummary`, `NewChain(tip).GetBlockID`,
`NewChain(tip).HasBlock` consistent with chain persistence).
`mbpRaw` models the params-contract state read inside
`getMaxBlockProposers` (`builtin.Params.Native(state).Get` followed by
`Uint64()`), keyed by the id of the block summary it is evaluated at;
`none` models a read error.  `roundInterval` is `thor.BFTRoundInterval`,
`finality` is `forkConfig.FINALITY`, `initialMBP` is
`thor.InitialMaxBlockProposers` (the `thor` constants package is not in
the sources; modelled from the spec as fixed positive parameters).
`best` is `repo.BestBlockSummary().Header`, `committed` is
`repo.Committed()`, and `betterThan` models `Header.BetterThan` (the
legacy total-score tie-break, external to the engine). -/
structure Env where
  headers : Bytes32 → Option Header
  mbpRaw : Bytes32 → Option Nat
  best : Header
  committed : Bytes32
  betterThan : Header → Header → Bool
  roundInterval : Nat
  finality : Nat
  initialMBP : Nat

/-- `engine.getBlockHeader(id)`: `repo.GetBlockSummary(id).Header`, an
error for an unknown id. -/
def getBlockHeader (env : Env) (id : Bytes32) : Except Err Header :=
  match env.headers id with
  | some h => .ok h
  | none => .error .missingBlock

/-- Walk the branch whose tip is `tip` down to block number `n`
(fuel-recursive; the fuel covers the walk because numbers strictly
decrease along a well-formed chain). -/
def chainIDAt (env : Env) : Nat → Bytes32 → Nat → Except Err Bytes32
  | 0, _, _ => .error .outOfFuel
  | fuel + 1, tip, n =>
    if blockNumber tip < n then .error .missingBlock
    else if blockNumber tip = n then .ok tip
    else
      match env.headers tip with
      | none => .error .missingBlock
      | some h => chainIDAt env fuel h.parentID n

/-- `repo.NewChain(tip).GetBlockID(n)`: the id at number `n` on the
branch through `tip`.  Modelled from the spec's chain contract as the
ancestor walk from `tip`. -/
def getBlockID (env : Env) (tip : Bytes32) (n : Nat) : Except Err Bytes32 :=
  chainIDAt env (blockNumber tip + 1) tip n

/-- `repo.NewChain(tip).HasBlock(id)`: whether `id` lies on the branch
through `tip`.  Modelled from the spec's chain contract: a block above
the tip's number is not on the branch, otherwise the id at its number on
the branch is compared with it. -/
def hasBlock (env : Env) (tip : Bytes32) (id : Bytes32) : Except Err Bool :=
  if blockNumber tip < blockNumber id then .ok false
  else
    match getBlockID env tip (blockNumber id) with
    | .error er => .error er
    | .ok found => .ok (found = id)

/-- The branch state, `bftState` of `engine.go` (returned by
`voteSet.getState` in `vote_set.go`, where the fields are spelled
`Weight`/`Justified`/`Committed`; `engine.go` reads them as
`Weight`/`JustifyAt`/`CommitAt`). -/
structure bftState where
  weight : Nat
  justifyAt : Option Bytes32
  commitAt : Option Bytes32
deriving DecidableEq, Repr

/-- `voteSet` of `vote_set.go`.  `votes` is the Go map from signer
address to "has voted COMMIT", modelled as an association list with
distinct keys (addresses are `Nat`). -/
structure VoteSet where
  parentWeight : Nat
  checkpoint : Nat
  threshold : Nat
  votes : List (Nat × Bool)
  comVotes : Nat
  justified : Option Bytes32
  committed : Option Bytes32
deriving DecidableEq, Repr

/-- Signer-map lookup used by `addVote`. -/
def findVote : List (Nat × Bool) → Nat → Option Bool
  | [], _ => none
  | (k, v) :: rest, key => if k = key then some v else findVote rest key

/-- Signer-map overwrite used by `addVote`. -/
def setVote : List (Nat × Bool) → Nat → Bool → List (Nat × Bool)
  | [], key, b => [(key, b)]
  | (k, v) :: rest, key, b =>
    if k = key then (k, b) :: rest else (k, v) :: setVote rest key b

/-- `voteSet.isCommitted()`. -/
def VoteSet.isCommitted (vs : VoteSet) : Bool :=
  vs.committed.isSome

/-- The vote-recording phase of `voteSet.addVote`: record a first vote
(counting a COMMIT), or upgrade a recorded witness to COMMIT. -/
def VoteSet.recordVote (vs : VoteSet) (signer : Nat) (isCom : Bool) : VoteSet :=
  match findVote vs.votes signer with
  | none =>
    { vs with
      votes := vs.votes ++ [(signer, isCom)]
      comVotes := if isCom then vs.comVotes + 1 else vs.comVotes }
  | some votedCom =>
    if !votedCom && isCom then
      { vs with votes := setVote vs.votes signer true, comVotes := vs.comVotes + 1 }
    else vs

/-- The marker phase of `voteSet.addVote`: set `justified` to this block
id when the distinct-voter count first exceeds the threshold, and
`committed` when the COMMIT count first exceeds it. -/
def VoteSet.updateMarkers (vs : VoteSet) (blockID : Bytes32) : VoteSet :=
  let vs :=
    if vs.justified = none ∧ vs.votes.length > vs.threshold then
      { vs with justified := some blockID }
    else vs
  if vs.committed = none ∧ vs.comVotes > vs.threshold then
    { vs with committed := some blockID }
  else vs

/-- `voteSet.addVote(signer, isCom, blockID)` of `vote_set.go`: ignore
everything once committed; otherwise record the vote and update the
justification/commitment markers. -/
def VoteSet.addVote (vs : VoteSet) (signer : Nat) (isCom : Bool)
    (blockID : Bytes32) : VoteSet :=
  if vs.isCommitted then vs
  else (vs.recordVote signer isCom).updateMarkers blockID

/-- `voteSet.getState()` of `vote_set.go`: weight is the parent round's
weight plus one when this round is justified. -/
def VoteSet.state (vs : VoteSet) : bftState :=
  { weight := if vs.justified.isSome then vs.parentWeight + 1 else vs.parentWeight
    justifyAt := vs.justified
    commitAt := vs.committed }

/-- The mutable state of `BFTEngine`: the in-memory `voted` map, the
persisted store, and the four caches (`state`, `weight`, `mbp`,
`voteset`).  The LRU/priority caches of the Go code are external library
types; they are modelled as unbounded maps (their eviction bounds are a
capacity concern the claims do not touch). -/
structure Engine where
  voted : List (Bytes32 × Nat)
  store : Store
  cacheState : List (Bytes32 × bftState)
  cacheWeight : List (Bytes32 × Nat)
  cacheMbp : List (Bytes32 × Nat)
  cacheVS : List (Bytes32 × VoteSet)
deriving DecidableEq, Repr

/-- `engine.getWeight(id)` of `engine.go`: serve from the weight cache
when present; otherwise read the store, and — via the deferred
`if err != nil` block — cache the (zero) named return value when and only
when the read failed. -/
def getWeight (e : Engine) (id : Bytes32) : Except Err Nat × Engine :=
  match lookupA e.cacheWeight id with
  | some w => (.ok w, e)
  | none =>
    match loadWeight e.store id with
    | .ok w => (.ok w, e)
    | .error er => (.error er, { e with cacheWeight := insertA e.cacheWeight id 0 })

/-- `engine.getMaxBlockProposers(sum)` of `engine.go`: serve from the mbp
cache when present; otherwise perform the params state read, and — via
the deferred `if err != nil` block — cache the (zero) named return value
exactly when the read failed; on success cap a zero or too-large value to
`InitialMaxBlockProposers` and return it uncached. -/
def getMaxBlockProposers (env : Env) (e : Engine) (sumID : Bytes32) :
    Except Err Nat × Engine :=
  match lookupA e.cacheMbp sumID with
  | some v => (.ok v, e)
  | none =>
    match env.mbpRaw sumID with
    | none => (.error .stateRead, { e with cacheMbp := insertA e.cacheMbp sumID 0 })
    | some raw =>
      let mbp := if raw = 0 ∨ raw > env.initialMBP then env.initialMBP else raw
      (.ok mbp, e)

/-- The threshold formula of `newVoteSet`: `mbp * 2 / 3` on `uint64`. -/
def thresholdOf (mbp : Nat) : Nat :=
  mbp * 2 % 2 ^ 64 / 3

/-- `newVoteSet(engine, parentID)` of `vote_set.go`: compute the round's
checkpoint number and the absolute round index (a signed comparison:
`uint32` wrap-around makes the Go value non-zero exactly when the integer
difference is), read the block summary of the last block of the previous
round on this branch, read `maxProposers` from it, and read the previous
round's weight unless this is the activation round. -/
def newVoteSet (env : Env) (e : Engine) (parentID : Bytes32) :
    Except Err VoteSet × Engine :=
  let blockNum := blockNumber parentID + 1
  let absRoundZero : Bool :=
    (blockNum / env.roundInterval : Int) - (env.finality / env.roundInterval : Int) = 0
  let checkpoint := blockNum / env.roundInterval * env.roundInterval
  let lastOfParentRound := if checkpoint > 0 then checkpoint - 1 else 0
  match getBlockID env parentID lastOfParentRound with
  | .error er => (.error er, e)
  | .ok sumID =>
    match getBlockHeader env sumID with
    | .error er => (.error er, e)
    | .ok _ =>
      match getMaxBlockProposers env e sumID with
      | (.error er, e1) => (.error er, e1)
      | (.ok mbp, e1) =>
        let threshold := thresholdOf mbp
        if absRoundZero then
          (.ok { parentWeight := 0, checkpoint := checkpoint, threshold := threshold
                 votes := [], comVotes := 0, justified := none, committed := none }, e1)
        else
          match getWeight e1 sumID with
          | (.error er, e2) => (.error er, e2)
          | (.ok parentWeight, e2) =>
            (.ok { parentWeight := parentWeight, checkpoint := checkpoint
                   threshold := threshold, votes := [], comVotes := 0
                   justified := none, committed := none }, e2)

/-- The header walk inside `engine.getState`: starting at the candidate
header, feed each header carrying a vote into the vote set, stopping when
the set commits, a header has no vote, or the walk reaches the iteration
end (`endN`, the round checkpoint or the reused boundary).  Fuel-recursive
(numbers strictly decrease along a well-formed chain). -/
def voteLoop (gh : Bytes32 → Except Err Header) (endN : Nat) :
    Nat → VoteSet → Header → Except Err VoteSet
  | 0, _, _ => .error .outOfFuel
  | fuel + 1, vs, h =>
    if vs.isCommitted then .ok vs
    else
      match h.vote with
      | none => .ok vs
      | some v =>
        match h.signer with
        | none => .error .signer
        | some signer =>
          let vs := vs.addVote signer (v = Vote.COM) h.id
          if h.number ≤ endN then .ok vs
          else
            match gh h.parentID with
            | .error er => .error er
            | .ok h' => voteLoop gh endN fuel vs h'

/-- The vote-set selection inside `engine.getState`: the entry popped
from the priority cache (keyed by the header's parent id) is continued
when the header is not at a round boundary; otherwise a fresh vote set is
built.  Returns the set together with the iteration end (the parent's
number when continuing, the round checkpoint when fresh). -/
def pickVoteSet (env : Env) (e1 : Engine) (header : Header)
    (entry : Option VoteSet) : Except Err (VoteSet × Nat) × Engine :=
  match entry with
  | some vs =>
    if header.number % env.roundInterval ≠ 0 then
      (.ok (vs, blockNumber header.parentID), e1)
    else
      match newVoteSet env e1 header.parentID with
      | (.ok vs', e2) => (.ok (vs', vs'.checkpoint), e2)
      | (.error er, e2) => (.error er, e2)
  | none =>
    match newVoteSet env e1 header.parentID with
    | (.ok vs', e2) => (.ok (vs', vs'.checkpoint), e2)
    | (.error er, e2) => (.error er, e2)

/-- `engine.getState(blockID, getHeader)` of `engine.go`: serve from the
state cache; return the zero state for block number 0; otherwise fetch
the header, pop a partially built vote set keyed by the parent id from
the priority cache (the pop happens unconditionally; it is used only when
the header is not at a round boundary), or construct a fresh vote set;
walk the headers; then cache the resulting state and the vote set under
the header's id. -/
def getState (env : Env) (gh : Bytes32 → Except Err Header) (e : Engine)
    (blockID : Bytes32) : Except Err bftState × Engine :=
  match lookupA e.cacheState blockID with
  | some st => (.ok st, e)
  | none =>
    if blockNumber blockID = 0 then
      (.ok { weight := 0, justifyAt := none, commitAt := none }, e)
    else
      match gh blockID with
      | .error er => (.error er, e)
      | .ok header =>
        match pickVoteSet env
            { e with cacheVS := eraseA e.cacheVS header.parentID }
            header (lookupA e.cacheVS header.parentID) with
        | (.error er, e2) => (.error er, e2)
        | (.ok (vs0, endN), e2) =>
          match voteLoop gh endN (header.number + 1) vs0 header with
          | .error er => (.error er, e2)
          | .ok vs =>
            let st := vs.state
            (.ok st,
             { e2 with
               cacheState := insertA e2.cacheState header.id st
               cacheVS := insertA e2.cacheVS header.id vs })

/-- The loop of Go's `sort.Search(n, f)` over an effectful predicate (the
accessor panics on error inside `findCheckpointByWeight` and the panic is
recovered into an error): binary search on `[i, j)`, with structural fuel
`≥ j - i`. -/
def searchGo (f : Engine → Nat → Except Err Bool × Engine) :
    Nat → Nat → Nat → Engine → Except Err Nat × Engine
  | 0, i, _, e => (.ok i, e)
  | fuel + 1, i, j, e =>
    if i < j then
      let m := (i + j) / 2
      match f e m with
      | (.error er, e') => (.error er, e')
      | (.ok true, e') => searchGo f fuel i m e'
      | (.ok false, e') => searchGo f fuel (m + 1) j e'
    else (.ok i, e)

/-- `sort.Search(n, f)`: smallest index in `[0, n)` where `f` flips to
true (`n` when none), assuming `f` monotone; the Go loop's fuel is the
width of the interval. -/
def sortSearch (f : Engine → Nat → Except Err Bool × Engine) (n : Nat)
    (e : Engine) : Except Err Nat × Engine :=
  searchGo f n 0 n e

/-- The round-end weight accessor `get(i)` of `findCheckpointByWeight`:
the stored weight of the block at `searchStart + (i+1)*RoundInterval - 1`
on the branch through `parentID`. -/
def roundEndWeight (env : Env) (parentID : Bytes32) (searchStart : Nat)
    (e : Engine) (i : Nat) : Except Err Nat × Engine :=
  match getBlockID env parentID (searchStart + (i + 1) * env.roundInterval - 1) with
  | .error er => (.error er, e)
  | .ok id => getWeight e id

/-- The predicate handed to `sort.Search` inside
`engine.findCheckpointByWeight`: `get(i) ≥ target`, where an accessor
error panics (is propagated). -/
def weightProbe (env : Env) (parentID : Bytes32) (searchStart target : Nat) :
    Engine → Nat → Except Err Bool × Engine := fun e i =>
  match roundEndWeight env parentID searchStart e i with
  | (.error er, e') => (.error er, e')
  | (.ok w, e') => (.ok (decide (w ≥ target)), e')

/-- `engine.findCheckpointByWeight(target, committed, parentID)` of
`engine.go`: fix the search origin at the committed block's number (or
the finality height rounded down to a round boundary when that is zero),
binary-search the per-round stored weights on the branch through
`parentID` for the first round whose weight reaches `target`, fail when
there is none or the weight found differs from `target`, and otherwise
return the id at that round's start. -/
def findCheckpointByWeight (env : Env) (e : Engine) (target : Nat)
    (committed parentID : Bytes32) : Except Err Bytes32 × Engine :=
  let searchStart0 := blockNumber committed
  let searchStart :=
    if searchStart0 = 0 then env.finality / env.roundInterval * env.roundInterval
    else searchStart0
  let n := (blockNumber parentID + 1 - searchStart) / env.roundInterval
  match sortSearch (weightProbe env parentID searchStart target) n e with
  | (.error er, e') => (.error er, e')
  | (.ok num, e') =>
    if num = n then (.error .weightSearch, e')
    else
      match roundEndWeight env parentID searchStart e' num with
      | (.error er, e'') => (.error er, e'')
      | (.ok w, e'') =>
        if w ≠ target then (.error .weightSearch, e'')
        else (getBlockID env parentID (searchStart + num * env.roundInterval), e'')

/-- The "most-recent justified checkpoint" computation inside
`engine.GetVote`: this round's checkpoint on the parent's branch when the
branch state is justified in this round, otherwise the checkpoint found
by weight. -/
def recentJustified (env : Env) (e : Engine) (parentID : Bytes32)
    (st : bftState) (weight : Nat) : Except Err Bytes32 × Engine :=
  match st.justifyAt with
  | some _ =>
    (getBlockID env parentID
      (blockNumber parentID / env.roundInterval * env.roundInterval), e)
  | none => findCheckpointByWeight env e weight env.committed parentID

/-- The ancestry test of one `voted` entry inside `engine.GetVote`: order
the recent justified checkpoint and the entry's checkpoint so that `a`
has the higher block number, then ask whether `b` is on the branch
through `a`. -/
def votedEntryIncluded (env : Env) (recentJC ckpt : Bytes32) : Except Err Bool :=
  if blockNumber ckpt > blockNumber recentJC then hasBlock env ckpt recentJC
  else hasBlock env recentJC ckpt

/-- The loop over the persisted `voted` map inside `engine.GetVote`: skip
entries below the committed block; return `WIT` at the first entry whose
checkpoint fails the ancestry test while its recorded weight is at least
`weight - 1; return `COM` when no entry triggers. -/
def votedLoop (env : Env) (recentJC : Bytes32) (weight committedNum : Nat) :
    List (Bytes32 × Nat) → Except Err Vote
  | [] => .ok .COM
  | (ckpt, w) :: rest =>
    if blockNumber ckpt ≥ committedNum then
      match votedEntryIncluded env recentJC ckpt with
      | .error er => .error er
      | .ok includes =>
        if !includes ∧ w ≥ weight - 1 then .ok .WIT
        else votedLoop env recentJC weight committedNum rest
    else votedLoop env recentJC weight committedNum rest

/-- `engine.GetVote(parentID)` of `engine.go`: compute the parent's
branch state; `WIT` when its weight is zero; otherwise locate the most
recent justified checkpoint and scan the persisted voted map for a
conflicting prior local vote of comparable weight. -/
def GetVote (env : Env) (e : Engine) (parentID : Bytes32) :
    Except Err Vote × Engine :=
  match getState env (getBlockHeader env) e parentID with
  | (.error er, e1) => (.error er, e1)
  | (.ok st, e1) =>
    if st.weight = 0 then (.ok .WIT, e1)
    else
      match recentJustified env e1 parentID st st.weight with
      | (.error er, e2) => (.error er, e2)
      | (.ok recentJC, e2) =>
        (votedLoop env recentJC st.weight (blockNumber env.committed) e2.voted, e2)

/-- `engine.MarkVoted(parentID)` of `engine.go`.  NOTE: the Go code reads
`checkpoint, err := … GetBlockID(…); if err != nil { return nil }` — a
lookup failure is swallowed (`nil` is returned and nothing is recorded)
instead of being propagated. -/
def MarkVoted (env : Env) (e : Engine) (parentID : Bytes32) :
    Except Err Unit × Engine :=
  match getBlockID env parentID
      (blockNumber parentID / env.roundInterval * env.roundInterval) with
  | .error _ => (.ok (), e)
  | .ok checkpoint =>
    match getState env (getBlockHeader env) e parentID with
    | (.error er, e1) => (.error er, e1)
    | (.ok st, e1) =>
      (.ok (), { e1 with voted := insertA e1.voted checkpoint st.weight })

/-- The newly-committed computation inside `engine.Process`: when the
header's branch state carries a commit marker equal to this header's id
and its weight exceeds one, translate `Weight - 1` into a checkpoint id
via the weight search. -/
def computeNewCommitted (env : Env) (e2 : Engine) (st : bftState)
    (header : Header) : Except Err (Option Bytes32) × Engine :=
  if st.commitAt = some header.id ∧ st.weight > 1 then
    match findCheckpointByWeight env e2 (st.weight - 1)
        env.committed header.parentID with
    | (.error er, e3) => (.error er, e3)
    | (.ok id, e3) => (.ok (some id), e3)
  else (.ok none, e2)

/-- `engine.Process(header)` of `engine.go`: legacy tie-break below the
finality fork height; conflict check against the committed block; branch
states of the header and the current best decide `becomeNewBest`; a
commit marker equal to this header with weight above one yields the newly
committed checkpoint via the weight search; finally the round-end weight
is persisted and cached when the header closes a round. -/
def Process (env : Env) (e : Engine) (header : Header) :
    Except Err (Bool × Option Bytes32) × Engine :=
  let best := env.best
  if header.number < env.finality ∨ best.number < env.finality then
    (.ok (env.betterThan header best, none), e)
  else
    let conflict : Except Err Unit :=
      if env.committed.isZero then .ok ()
      else
        match hasBlock env header.parentID env.committed with
        | .error er => .error er
        | .ok included => if included then .ok () else .error .conflictWithCommitted
    match conflict with
    | .error er => (.error er, e)
    | .ok _ =>
      let gh : Bytes32 → Except Err Header := fun id =>
        if id = header.id then .ok header else getBlockHeader env id
      match getState env gh e header.id with
      | (.error er, e1) => (.error er, e1)
      | (.ok st, e1) =>
        match getState env (getBlockHeader env) e1 best.id with
        | (.error er, e2) => (.error er, e2)
        | (.ok bSt, e2) =>
          let becomeNewBest :=
            if st.weight ≠ bSt.weight then st.weight > bSt.weight
            else env.betterThan header best
          match computeNewCommitted env e2 st header with
          | (.error er, e3) => (.error er, e3)
          | (.ok nc, e3) =>
            if (header.number + 1) % env.roundInterval = 0 then
              (.ok (becomeNewBest, nc),
               { e3 with
                 store := saveWeight e3.store header.id st.weight
                 cacheWeight := insertA e3.cacheWeight header.id st.weight })
            else (.ok (becomeNewBest, nc), e3)

/-- The trimming filter of `engine.Close()`: keep the voted entries whose
checkpoint block number is at or above the committed block's number. -/
def trimVoted (env : Env) (e : Engine) : List (Bytes32 × Nat) :=
  e.voted.filter fun kv => blockNumber kv.1 ≥ blockNumber env.committed

/-- `engine.Close()` of `engine.go`: when the in-memory voted map is
non-empty, keep the entries at or above the committed block's number and,
when any survive, persist them under `votedKey`. -/
def Close (env : Env) (e : Engine) : Engine :=
  if e.voted.length > 0 then
    let toSave := trimVoted env e
    if toSave.length > 0 then { e with store := saveVoted e.store toSave }
    else e
  else e

/-- `NewEngine(repo, mainDB, forkConfig)` of `engine.go`: load the
persisted voted map — any load error fails construction — and start with
empty caches. -/
def NewEngine (store : Store) : Except Err Engine :=
  match loadVoted store with
  | .error er => .error er
  | .ok voted =>
    .ok { voted := voted, store := store, cacheState := [], cacheWeight := []
          cacheMbp := [], cacheVS := [] }

/-- The pure skeleton of Go's `sort.Search` loop, used to analyse the
effectful `searchGo` once the accessor is known to succeed. -/
def pureGo (p : Nat → Bool) : Nat → Nat → Nat → Nat
  | 0, i, _ => i
  | fuel + 1, i, j =>
    if i < j then
      if p ((i + j) / 2) then pureGo p fuel i ((i + j) / 2)
      else pureGo p fuel ((i + j) / 2 + 1) j
    else i

/-- `runVotes vs l`: feed a list of `(signer, isCommit, blockID)` votes
into a vote set, as the header walk of `getState` does. -/
def runVotes (vs : VoteSet) : List (Nat × Bool × Bytes32) → VoteSet
  | [] => vs
  | (s, c, id) :: rest => runVotes (vs.addVote s c id) rest

/-- A fresh vote set, as `newVoteSet` returns it. -/
def freshVS (parentWeight checkpoint threshold : Nat) : VoteSet :=
  { parentWeight := parentWeight, checkpoint := checkpoint
    threshold := threshold, votes := [], comVotes := 0
    justified := none, committed := none }

/-- Distinct signers of a vote list. -/
def msgSigners (l : List (Nat × Bool × Bytes32)) : Finset ℕ :=
  (l.map fun m => m.1).toFinset

/-- Distinct COMMIT signers of a vote list. -/
def msgComSigners (l : List (Nat × Bool × Bytes32)) : Finset ℕ :=
  ((l.filter fun m => m.2.1).map fun m => m.1).toFinset

/-- Distinct keys of a signer map. -/
def keyset (votes : List (Nat × Bool)) : Finset ℕ :=
  (votes.map Prod.fst).toFinset

/-- Distinct keys recorded COMMIT in a signer map. -/
def comKeyset (votes : List (Nat × Bool)) : Finset ℕ :=
  ((votes.filter Prod.snd).map Prod.fst).toFinset

/-- The structural invariant of a vote set maintained by `addVote`: the
signer map has distinct keys, `comVotes` counts its COMMIT entries, and
the two markers are set exactly when the corresponding count strictly
exceeds the threshold. -/
def VSInv (vs : VoteSet) : Prop :=
  (vs.votes.map Prod.fst).Nodup ∧
  vs.comVotes = (vs.votes.filter Prod.snd).length ∧
  (vs.justified.isSome ↔ vs.votes.length > vs.threshold) ∧
  (vs.committed.isSome ↔ vs.comVotes > vs.threshold)

/-!  Concrete test fixtures: a single 11-block chain (`RoundInterval = 4`,
`FinalityHeight = 0`, three proposers, so `threshold = 2`).  Round 0
(blocks 1–3) is justified by three distinct witnesses, round 1 (blocks
4–7) carries only one signer, round 2 (blocks 8–10) gets three distinct
COMMIT votes. -/

/-- Signer of each fixture block. -/
def exSig : Nat → Nat
  | 1 => 1 | 2 => 2 | 3 => 3
  | 4 => 1 | 5 => 1 | 6 => 1 | 7 => 1
  | 8 => 1 | 9 => 2 | 10 => 3
  | _ => 0

/-- Vote of each fixture block. -/
def exVote (n : Nat) : Option Vote :=
  if n = 0 then none else if n ≥ 8 then some .COM else some .WIT

/-- Fixture header of block `n` (genesis id `⟨0, 7⟩`; the genesis parent
id wraps the number to 0). -/
def exHdr (n : Nat) : Header :=
  { parentID := if n = 0 then ⟨2 ^ 32 - 1, 0⟩ else if n = 1 then ⟨0, 7⟩ else ⟨n - 1, 0⟩
    vote := exVote n
    signer := some (exSig n)
    id := if n = 0 then ⟨0, 7⟩ else ⟨n, 0⟩ }

/-- Fixture header lookup. -/
def exHeaders : Bytes32 → Option Header := fun b =>
  if b = ⟨0, 7⟩ then some (exHdr 0)
  else if b.rest = 0 ∧ 1 ≤ b.num ∧ b.num ≤ 10 then some (exHdr b.num)
  else none

/-- Fixture environment when block `k` arrives (best is block `k - 1`,
nothing committed yet). -/
def exEnvAt (k : Nat) : Env :=
  { headers := exHeaders, mbpRaw := fun _ => some 3, best := exHdr (k - 1)
    committed := ⟨0, 0⟩, betterThan := fun _ _ => false
    roundInterval := 4, finality := 0, initialMBP := 101 }

/-- Fixture pristine engine. -/
def exE0 : Engine :=
  { voted := [], store := { weightTab := [], votedBytes := none }
    cacheState := [], cacheWeight := [], cacheMbp := [], cacheVS := [] }

/-- Fixture engine evolution: process blocks `1 … k` in order. -/
def exPipeline : Nat → Engine
  | 0 => exE0
  | k + 1 => (Process (exEnvAt (k + 1)) (exPipeline k) (exHdr (k + 1))).2

/-- Environment for the vote-policy counterexample: the chain has
committed block 8 while the node's persisted vote is for a dead fork's
round-1 checkpoint `⟨4, 99⟩`. -/
def exEnvB : Env :=
  { headers := exHeaders, mbpRaw := fun _ => some 3, best := exHdr 10
    committed := ⟨8, 0⟩, betterThan := fun _ _ => false
    roundInterval := 4, finality := 0, initialMBP := 101 }

/-- Engine for the vote-policy counterexample: voted for the dead fork's
checkpoint with weight 2; round-1 end weight persisted. -/
def exEB : Engine :=
  { voted := [(⟨4, 99⟩, 2)]
    store := { weightTab := [(⟨7, 0⟩, 1)], votedBytes := none }
    cacheState := [], cacheWeight := [], cacheMbp := [], cacheVS := [] }

/-- Environment for the vote-policy witness: nothing committed, prior
vote on a conflicting checkpoint of the same round. -/
def exEnvD : Env := { exEnvB with committed := ⟨0, 0⟩ }

/-- Engine for the vote-policy witness: voted for the conflicting
round-2 checkpoint `⟨8, 77⟩` with weight 2. -/
def exED : Engine := { exEB with voted := [(⟨8, 77⟩, 2)] }

/-- Environment for the conflict-with-committed witness: the committed
block is the fork block `⟨4, 99⟩`, absent from the main chain. -/
def exEnvC : Env :=
  { exEnvB with best := exHdr 9, committed := ⟨4, 99⟩ }

/-- Headers for the weight-search fixture: a plain 20-block chain with no
votes. -/
def exWHeaders : Bytes32 → Option Header := fun b =>
  if b.rest = 0 ∧ 1 ≤ b.num ∧ b.num ≤ 19 then
    some { parentID := ⟨b.num - 1, 0⟩, vote := none, signer := some 0, id := ⟨b.num, 0⟩ }
  else none

/-- Environment for the weight-search fixture (spec scenario S5). -/
def exEnvW : Env :=
  { headers := exWHeaders, mbpRaw := fun _ => some 3, best := exHdr 0
    committed := ⟨0, 0⟩, betterThan := fun _ _ => false
    roundInterval := 4, finality := 0, initialMBP := 101 }

/-- Engine for the weight-search fixture: stored round-end weights
`[1, 1, 2, 3, 3]` for the five rounds ending at blocks 3, 7, 11, 15, 19. -/
def exEW : Engine :=
  { voted := []
    store :=
      { weightTab := [(⟨3, 0⟩, 1), (⟨7, 0⟩, 1), (⟨11, 0⟩, 2), (⟨15, 0⟩, 3), (⟨19, 0⟩, 3)]
        votedBytes := none }
    cacheState := [], cacheWeight := [], cacheMbp := [], cacheVS := [] }

/-- The round-end weights of the weight-search fixture. -/
def exW (i : Nat) : Nat := [1, 1, 2, 3, 3].getD i 0

/-- Engine whose voted entry sits exactly at the committed block number
(for the shutdown round-trip counterexample). -/
def exEClose : Engine :=
  { exE0 with voted := [(⟨15, 1⟩, 4)] }

/-- Environment with the committed block at number 15. -/
def exEnvClose : Env := { exEnvB with committed := ⟨15, 0⟩ }

/-- Engine with the spec's S6 voted map (entries at numbers 10 and 20). -/
def exECloseW : Engine :=
  { exE0 with voted := [(⟨10, 1⟩, 3), (⟨20, 2⟩, 4)] }

/-- A store whose persisted voted map is malformed (one stray byte). -/
def exBadStore : Store := { weightTab := [], votedBytes := some [0] }

/-- Environment for the mbp-cache fixture: the params read fails at block
`⟨1, 1⟩` and yields 5 elsewhere. -/
def exEnvM : Env :=
  { headers := exHeaders, mbpRaw := fun b => if b = ⟨1, 1⟩ then none else some 5
    best := exHdr 0, committed := ⟨0, 0⟩, betterThan := fun _ _ => false
    roundInterval := 4, finality := 0, initialMBP := 101 }

/-- Engine for the mark-voted fixture: empty voted map, round-1 end
weight persisted so the branch state of block 10 is computable. -/
def exEMark : Engine :=
  { voted := [], store := { weightTab := [(⟨7, 0⟩, 1)], votedBytes := none }
    cacheState := [], cacheWeight := [], cacheMbp := [], cacheVS := [] }

/-! Helper lemmas. -/

theorem lookupA_insertA_self {β : Type} (l : List (Bytes32 × β)) (k : Bytes32) (v : β) :
    lookupA (insertA l k v) k = some v := by
  simp [insertA, lookupA]

theorem decodeVoted_encodeVoted (l : List (Bytes32 × Nat)) :
    decodeVoted (encodeVoted l) = some l := by
  induction l with
  | nil => rfl
  | cons kv rest ih =>
    obtain ⟨k, w⟩ := kv
    simp [encodeVoted, decodeVoted, ih]

/-! ### C5: `Process` on a header conflicting with the committed block -/

/-- C5: for every header at or above the finality height (with best also
at or above it) such that the committed block is non-zero and not on the
chain through the header's parent, `Process` fails with the
conflict-with-committed error and leaves the engine — the voted map, the
caches and the persisted store — unchanged. -/
theorem process_conflict_unchanged (env : Env) (e : Engine) (header : Header)
    (h1 : ¬ header.number < env.finality) (h2 : ¬ env.best.number < env.finality)
    (h3 : env.committed.isZero = false)
    (h4 : hasBlock env header.parentID env.committed = .ok false) :
    Process env e header = (.error .conflictWithCommitted, e) := by
  unfold Process
  simp [h1, h2, h3, h4]

/-- Witness for C5: block 10 of the fixture chain arrives while the
committed block is the fork block `⟨4, 99⟩`, absent from its ancestry. -/
theorem process_conflict_unchanged_witness :
    (¬ (exHdr 10).number < exEnvC.finality) ∧
    (¬ exEnvC.best.number < exEnvC.finality) ∧
    exEnvC.committed.isZero = false ∧
    hasBlock exEnvC (exHdr 10).parentID exEnvC.committed = .ok false ∧
    Process exEnvC exEB (exHdr 10) = (.error .conflictWithCommitted, exEB) :=
  ⟨by decide, by decide, by decide, by decide,
   process_conflict_unchanged exEnvC exEB (exHdr 10) (by decide) (by decide)
     (by decide) (by decide)⟩

/-! ### C7: a malformed persisted voted map fails engine construction -/

/-- Counterexample for C7: with the persisted voted map malformed (a
single stray byte under `votedKey`), `NewEngine` fails with the decode
error instead of continuing with an empty voted map. -/
theorem newEngine_decode_error_cex : NewEngine exBadStore = .error .decode := rfl

/-- C7 (amended): engine construction over a store whose persisted voted
map fails to decode propagates the decode failure and fails, rather than
treating the map as empty. -/
theorem newEngine_decode_error (s : Store) (b : Bytes)
    (h1 : s.votedBytes = some b) (h2 : decodeVoted b = none) :
    NewEngine s = .error .decode := by
  simp [NewEngine, loadVoted, h1, h2]

/-- Witness for C7. -/
theorem newEngine_decode_error_witness :
    exBadStore.votedBytes = some [0] ∧ decodeVoted [0] = none ∧
    NewEngine exBadStore = .error .decode :=
  ⟨rfl, rfl, newEngine_decode_error exBadStore [0] rfl rfl⟩

/-! ### C9: `getWeight` caches 0 on a failed store read -/

/-- C9: when a block id has no weight entry (neither cached nor stored),
the first `getWeight` call returns the missing-entry error but caches the
value 0 under the id, and every subsequent `getWeight` on that id — in
particular the accessor calls of `findCheckpointByWeight`'s binary
search — returns weight 0 with no error. -/
theorem getWeight_error_caches_zero (e : Engine) (id : Bytes32)
    (h1 : lookupA e.cacheWeight id = none)
    (h2 : lookupA e.store.weightTab id = none) :
    (getWeight e id).1 = .error .notFound ∧
    lookupA ((getWeight e id).2).cacheWeight id = some 0 ∧
    getWeight ((getWeight e id).2) id = (.ok 0, (getWeight e id).2) ∧
    (∀ e2 : Engine, lookupA e2.cacheWeight id = some 0 →
      getWeight e2 id = (.ok 0, e2)) ∧
    (∀ (env : Env) (pid : Bytes32) (ss i : Nat) (e2 : Engine),
      lookupA e2.cacheWeight id = some 0 →
      getBlockID env pid (ss + (i + 1) * env.roundInterval - 1) = .ok id →
      roundEndWeight env pid ss e2 i = (.ok 0, e2)) := by
  have hcached : ∀ e2 : Engine, lookupA e2.cacheWeight id = some 0 →
      getWeight e2 id = (.ok 0, e2) := by
    intro e2 hc
    unfold getWeight
    rw [hc]
  have hfirst : getWeight e id =
      (.error .notFound, { e with cacheWeight := insertA e.cacheWeight id 0 }) := by
    unfold getWeight loadWeight
    rw [h1, h2]
  refine ⟨by rw [hfirst], ?_, ?_, hcached, ?_⟩
  · rw [hfirst]
    exact lookupA_insertA_self _ _ _
  · rw [hfirst]
    exact hcached _ (lookupA_insertA_self _ _ _)
  · intro env pid ss i e2 hc hgb
    unfold roundEndWeight
    rw [hgb]
    exact hcached e2 hc

/-- Witness for C9: id `⟨42, 0⟩` is absent from the fixture store. -/
theorem getWeight_error_caches_zero_witness :
    lookupA exEW.cacheWeight ⟨42, 0⟩ = none ∧
    lookupA exEW.store.weightTab ⟨42, 0⟩ = none ∧
    (getWeight exEW ⟨42, 0⟩).1 = .error .notFound ∧
    getWeight ((getWeight exEW ⟨42, 0⟩).2) ⟨42, 0⟩ =
      (.ok 0, (getWeight exEW ⟨42, 0⟩).2) :=
  ⟨rfl, by decide,
   (getWeight_error_caches_zero exEW ⟨42, 0⟩ rfl (by decide)).1,
   (getWeight_error_caches_zero exEW ⟨42, 0⟩ rfl (by decide)).2.2.1⟩

/-! ### C6: `Close` / reopen round trip -/

/-- Counterexample for C6: a voted entry whose checkpoint number equals
the committed block's number (15) survives `Close` and reappears after
reopening, while the claim says entries at or below committed are
discarded (here the claimed trimmed map is empty). -/
theorem close_reopen_boundary_cex :
    (Close exEnvClose exEClose).store.votedBytes = some [15, 1, 4] ∧
    NewEngine (Close exEnvClose exEClose).store =
      .ok { voted := [(⟨15, 1⟩, 4)]
            store := { weightTab := [], votedBytes := some [15, 1, 4] }
            cacheState := [], cacheWeight := [], cacheMbp := [], cacheVS := [] } ∧
    List.filter (fun kv => decide (blockNumber kv.1 > blockNumber exEnvClose.committed))
      exEClose.voted = [] ∧
    blockNumber (⟨15, 1⟩ : Bytes32) ≤ blockNumber exEnvClose.committed := by
  exact ⟨rfl, rfl, rfl, by decide⟩

/-- C6 (amended): `Close()` followed by reconstruction over the same
store yields an engine whose voted map is the original trimmed to
committed, where entries strictly below the committed block number are
discarded and entries at or above it survive — provided the trimmed map
is non-empty (otherwise nothing is written). -/
theorem close_reopen_roundtrip (env : Env) (e : Engine)
    (h : trimVoted env e ≠ []) :
    ∃ eng : Engine, NewEngine (Close env e).store = .ok eng ∧
      eng.voted = trimVoted env e := by
  have hne : e.voted ≠ [] := by
    intro h0
    exact h (by simp [trimVoted, h0])
  have hlen : 0 < e.voted.length := List.length_pos.mpr hne
  have hlen2 : 0 < (trimVoted env e).length := List.length_pos.mpr h
  refine ⟨{ voted := trimVoted env e, store := (Close env e).store
            cacheState := [], cacheWeight := [], cacheMbp := [], cacheVS := [] },
          ?_, rfl⟩
  have hclose : (Close env e).store = saveVoted e.store (trimVoted env e) := by
    simp only [Close, if_pos hlen, if_pos hlen2]
  rw [hclose]
  simp [NewEngine, loadVoted, saveVoted, decodeVoted_encodeVoted]

/-- Witness for C6: the spec's S6 scenario — entries at numbers 10 and 20
with the committed block at 15 reopen as exactly the number-20 entry. -/
theorem close_reopen_roundtrip_witness :
    trimVoted exEnvClose exECloseW = [(⟨20, 2⟩, 4)] ∧
    ∃ eng : Engine, NewEngine (Close exEnvClose exECloseW).store = .ok eng ∧
      eng.voted = [(⟨20, 2⟩, 4)] := by
  refine ⟨by decide, ?_⟩
  obtain ⟨eng, h1, h2⟩ := close_reopen_roundtrip exEnvClose exECloseW (by decide)
  exact ⟨eng, h1, by rw [h2]; decide⟩

/-! ### C8: `MarkVoted` and chain-lookup failures -/

/-- C8 (the code, at the failing input): the checkpoint lookup for parent
id `⟨5, 5⟩` fails with a missing-block error, yet `MarkVoted` returns
success and records nothing — the error is swallowed by the
`if err != nil { return nil }` slip instead of being propagated as the
claim (and the spec's error-propagation policy) requires.  On the success
path (parent `⟨10, 0⟩`) the entry `voted[checkpoint_of(parent)] =
S.Weight` is recorded as claimed. -/
theorem markVoted_swallows_lookup_error :
    getBlockID exEnvB ⟨5, 5⟩
      (blockNumber (⟨5, 5⟩ : Bytes32) / exEnvB.roundInterval * exEnvB.roundInterval) =
      .error .missingBlock ∧
    MarkVoted exEnvB exEB ⟨5, 5⟩ = (.ok (), exEB) ∧
    (MarkVoted exEnvD exEMark ⟨10, 0⟩).1 = .ok () ∧
    (MarkVoted exEnvD exEMark ⟨10, 0⟩).2.voted = [(⟨8, 0⟩, 2)] ∧
    (getState exEnvD (getBlockHeader exEnvD) exEMark ⟨10, 0⟩).1 =
      .ok { weight := 2, justifyAt := some ⟨8, 0⟩, commitAt := some ⟨8, 0⟩ } := by
  refine ⟨by decide, by decide, by decide, by decide, by decide⟩

/-! ### C10: `getMaxBlockProposers` caches only failures -/

/-- Any successfully built vote set draws its threshold from a
`getMaxBlockProposers` result via the `mbp * 2 / 3` formula, and starts
empty. -/
theorem newVoteSet_threshold_inv (env : Env) (e : Engine) (pid : Bytes32)
    (vs : VoteSet) (e' : Engine) (h : newVoteSet env e pid = (.ok vs, e')) :
    ∃ sumID mbp eM, getMaxBlockProposers env e sumID = (.ok mbp, eM) ∧
      vs.threshold = thresholdOf mbp ∧ vs.votes = [] ∧ vs.comVotes = 0 ∧
      vs.justified = none ∧ vs.committed = none := by
  unfold newVoteSet at h
  dsimp only at h
  split at h
  · simp at h
  case _ sumID hgb =>
    split at h
    · simp at h
    case _ hd hh =>
      split at h
      · simp at h
      case _ mbp e1 hmbp =>
        split at h
        · obtain ⟨h1, h2⟩ := Prod.mk.injEq .. |>.mp h
          cases h1
          exact ⟨sumID, mbp, e1, hmbp, rfl, rfl, rfl, rfl, rfl⟩
        · split at h
          · simp at h
          case _ pw e2 hwt =>
            obtain ⟨h1, h2⟩ := Prod.mk.injEq .. |>.mp h
            cases h1
            exact ⟨sumID, mbp, e1, hmbp, rfl, rfl, rfl, rfl, rfl⟩

/-- C10: `getMaxBlockProposers` caches a value only when the params state
read fails, and then caches 0; afterwards every call for that block id
returns 0 with no error, bypassing the cap-to-`InitialMaxBlockProposers`
correction; successful reads are never cached (the engine is unchanged);
a vote set built over such a cached-zero mbp gets threshold
`0 * 2 / 3 = 0` (every vote set's threshold is `mbp * 2 / 3` of a
`getMaxBlockProposers` result), and with threshold 0 a single vote
justifies the round and a single COMMIT vote commits it. -/
theorem mbp_error_cached_zero (env : Env) (e : Engine) (id : Bytes32)
    (h1 : lookupA e.cacheMbp id = none) (h2 : env.mbpRaw id = none) :
    (getMaxBlockProposers env e id).1 = .error .stateRead ∧
    lookupA ((getMaxBlockProposers env e id).2).cacheMbp id = some 0 ∧
    getMaxBlockProposers env ((getMaxBlockProposers env e id).2) id =
      (.ok 0, (getMaxBlockProposers env e id).2) ∧
    (∀ e2 : Engine, lookupA e2.cacheMbp id = some 0 →
      getMaxBlockProposers env e2 id = (.ok 0, e2)) ∧
    (∀ (env2 : Env) (e2 : Engine) (id2 : Bytes32) (raw : Nat),
      lookupA e2.cacheMbp id2 = none → env2.mbpRaw id2 = some raw →
      getMaxBlockProposers env2 e2 id2 =
        (.ok (if raw = 0 ∨ raw > env2.initialMBP then env2.initialMBP else raw), e2)) ∧
    thresholdOf 0 = 0 ∧
    (∀ (env2 : Env) (e2 : Engine) (pid : Bytes32) (vs : VoteSet) (e' : Engine),
      newVoteSet env2 e2 pid = (.ok vs, e') →
      ∃ sumID mbp eM, getMaxBlockProposers env2 e2 sumID = (.ok mbp, eM) ∧
        vs.threshold = thresholdOf mbp) ∧
    (∀ (pw cp s : Nat) (c : Bool) (bid : Bytes32),
      ((freshVS pw cp 0).addVote s c bid).justified = some bid ∧
      ((freshVS pw cp 0).addVote s true bid).committed = some bid ∧
      ((freshVS pw cp 0).addVote s false bid).committed = none) := by
  have hcached : ∀ e2 : Engine, lookupA e2.cacheMbp id = some 0 →
      getMaxBlockProposers env e2 id = (.ok 0, e2) := by
    intro e2 hc
    unfold getMaxBlockProposers
    rw [hc]
  have hfirst : getMaxBlockProposers env e id =
      (.error .stateRead, { e with cacheMbp := insertA e.cacheMbp id 0 }) := by
    unfold getMaxBlockProposers
    rw [h1, h2]
  refine ⟨by rw [hfirst], ?_, ?_, hcached, ?_, rfl, ?_, ?_⟩
  · rw [hfirst]
    exact lookupA_insertA_self _ _ _
  · rw [hfirst]
    exact hcached _ (lookupA_insertA_self _ _ _)
  · intro env2 e2 id2 raw hmiss hraw
    unfold getMaxBlockProposers
    rw [hmiss, hraw]
  · intro env2 e2 pid vs e' h
    obtain ⟨sumID, mbp, eM, hmbp, hth, _⟩ := newVoteSet_threshold_inv env2 e2 pid vs e' h
    exact ⟨sumID, mbp, eM, hmbp, hth⟩
  · intro pw cp s c bid
    refine ⟨?_, ?_, ?_⟩ <;>
      cases c <;>
      simp [freshVS, VoteSet.addVote, VoteSet.recordVote, VoteSet.updateMarkers,
        VoteSet.isCommitted, findVote]

/-- Witness for C10: in the fixture the params read fails at block
`⟨1, 1⟩` and succeeds with 5 at block `⟨3, 0⟩`. -/
theorem mbp_error_cached_zero_witness :
    lookupA exE0.cacheMbp ⟨1, 1⟩ = none ∧ exEnvM.mbpRaw ⟨1, 1⟩ = none ∧
    (getMaxBlockProposers exEnvM exE0 ⟨1, 1⟩).1 = .error .stateRead ∧
    getMaxBlockProposers exEnvM ((getMaxBlockProposers exEnvM exE0 ⟨1, 1⟩).2) ⟨1, 1⟩ =
      (.ok 0, (getMaxBlockProposers exEnvM exE0 ⟨1, 1⟩).2) ∧
    getMaxBlockProposers exEnvM exE0 ⟨3, 0⟩ = (.ok 5, exE0) := by
  have h := mbp_error_cached_zero exEnvM exE0 ⟨1, 1⟩ rfl (by decide)
  refine ⟨rfl, by decide, h.1, h.2.2.1, ?_⟩
  have h5 := h.2.2.2.2.1 exEnvM exE0 ⟨3, 0⟩ 5 rfl (by decide)
  simpa using h5

/-! ### Binary-search analysis (`sort.Search`) -/

theorem pureGo_le (p : Nat → Bool) :
    ∀ fuel i j : Nat, i ≤ j → i ≤ pureGo p fuel i j ∧ pureGo p fuel i j ≤ j := by
  intro fuel
  induction fuel with
  | zero =>
    intro i j hij
    exact ⟨le_refl i, hij⟩
  | succ fuel ih =>
    intro i j hij
    by_cases h : i < j
    · have hmi : i ≤ (i + j) / 2 := by omega
      have hmj : (i + j) / 2 < j := by omega
      by_cases hp : p ((i + j) / 2) = true
      · have hrec := ih i ((i + j) / 2) hmi
        simp only [pureGo, if_pos h, hp, if_true]
        exact ⟨hrec.1, le_trans hrec.2 (le_of_lt hmj)⟩
      · have hpf : p ((i + j) / 2) = false := by
          simpa using hp
        have hrec := ih ((i + j) / 2 + 1) j (by omega)
        simp only [pureGo, if_pos h, hpf, Bool.false_eq_true, if_false]
        exact ⟨by omega, hrec.2⟩
    · simp only [pureGo, if_neg h]
      exact ⟨le_refl i, hij⟩

theorem pureGo_true (p : Nat → Bool) :
    ∀ fuel i j : Nat, j - i ≤ fuel → i ≤ j →
      pureGo p fuel i j < j → p (pureGo p fuel i j) = true := by
  intro fuel
  induction fuel with
  | zero =>
    intro i j hf hij hlt
    simp only [pureGo] at hlt
    omega
  | succ fuel ih =>
    intro i j hf hij hlt
    by_cases h : i < j
    · have hmi : i ≤ (i + j) / 2 := by omega
      have hmj : (i + j) / 2 < j := by omega
      by_cases hp : p ((i + j) / 2) = true
      · simp only [pureGo, if_pos h, hp, if_true] at hlt ⊢
        have hle := pureGo_le p fuel i ((i + j) / 2) hmi
        rcases lt_or_eq_of_le hle.2 with hlt2 | heq
        · exact ih i ((i + j) / 2) (by omega) hmi hlt2
        · rw [heq]
          exact hp
      · have hpf : p ((i + j) / 2) = false := by simpa using hp
        simp only [pureGo, if_pos h, hpf, Bool.false_eq_true, if_false] at hlt ⊢
        exact ih ((i + j) / 2 + 1) j (by omega) (by omega) hlt
    · simp only [pureGo, if_neg h] at hlt
      omega

theorem pureGo_false (p : Nat → Bool) :
    ∀ fuel i j : Nat, j - i ≤ fuel →
      (∀ a b, a ≤ b → b < j → p a = true → p b = true) →
      ∀ k, i ≤ k → k < pureGo p fuel i j → p k = false := by
  intro fuel
  induction fuel with
  | zero =>
    intro i j hf mono k hk hkr
    simp only [pureGo] at hkr
    omega
  | succ fuel ih =>
    intro i j hf mono k hk hkr
    by_cases h : i < j
    · have hmi : i ≤ (i + j) / 2 := by omega
      have hmj : (i + j) / 2 < j := by omega
      by_cases hp : p ((i + j) / 2) = true
      · simp only [pureGo, if_pos h, hp, if_true] at hkr
        exact ih i ((i + j) / 2) (by omega)
          (fun a b hab hb hpa => mono a b hab (lt_trans hb hmj) hpa) k hk hkr
      · have hpf : p ((i + j) / 2) = false := by simpa using hp
        simp only [pureGo, if_pos h, hpf, Bool.false_eq_true, if_false] at hkr
        rcases le_or_lt k ((i + j) / 2) with hkm | hkm
        · by_contra hc
          have hpk : p k = true := by
            cases hx : p k
            · exact absurd hx hc
            · rfl
          exact absurd (mono k ((i + j) / 2) hkm hmj hpk) (by simp [hpf])
        · exact ih ((i + j) / 2 + 1) j (by omega) mono k (by omega) hkr
    · simp only [pureGo, if_neg h] at hkr
      omega

theorem searchGo_pure (f : Engine → Nat → Except Err Bool × Engine)
    (p : Nat → Bool) (e : Engine) (J : Nat)
    (hfp : ∀ m, m < J → f e m = (.ok (p m), e)) :
    ∀ fuel i j : Nat, j ≤ J → searchGo f fuel i j e = (.ok (pureGo p fuel i j), e) := by
  intro fuel
  induction fuel with
  | zero =>
    intro i j hj
    rfl
  | succ fuel ih =>
    intro i j hj
    by_cases h : i < j
    · have hm : (i + j) / 2 < J := by omega
      simp only [searchGo, pureGo, if_pos h]
      rw [hfp _ hm]
      cases hpm : p ((i + j) / 2) with
      | true =>
        simp only [if_true]
        exact ih i ((i + j) / 2) (by omega)
      | false =>
        simp only [Bool.false_eq_true, if_false]
        exact ih ((i + j) / 2 + 1) j hj
    · simp only [searchGo, pureGo, if_neg h]

/-! ### C4: the weight search -/

/-- C4: with `searchStart` the committed block's number (or the finality
height rounded down to a round boundary when that is zero) and
`N = (number(parentID) + 1 - searchStart) / RoundInterval`, and the
stored round-end weights on the branch monotone, `findCheckpointByWeight`
returns the round-start id `searchStart + i*RoundInterval` for the
smallest `i < N` whose round-end weight reaches the target — succeeding
exactly when that weight equals the target — and fails with the
weight-search error when no round's weight equals the target. -/
theorem findCheckpointByWeight_search_spec (env : Env) (e : Engine)
    (target : Nat) (committed parentID : Bytes32) (ss n : Nat) (w : Nat → Nat)
    (hss : ss = if blockNumber committed = 0 then
        env.finality / env.roundInterval * env.roundInterval
      else blockNumber committed)
    (hn : n = (blockNumber parentID + 1 - ss) / env.roundInterval)
    (hw : ∀ i, i < n → roundEndWeight env parentID ss e i = (.ok (w i), e))
    (mono : ∀ a b, a ≤ b → b < n → w a ≤ w b) :
    (∀ i, i < n → w i = target → (∀ k, k < i → w k < target) →
      findCheckpointByWeight env e target committed parentID =
        (getBlockID env parentID (ss + i * env.roundInterval), e)) ∧
    ((∀ i, i < n → w i ≠ target) →
      findCheckpointByWeight env e target committed parentID =
        (.error .weightSearch, e)) := by
  have hfp : ∀ m, m < n →
      weightProbe env parentID ss target e m = (.ok (decide (w m ≥ target)), e) := by
    intro m hm
    unfold weightProbe
    rw [hw m hm]
  have hsearch : sortSearch (weightProbe env parentID ss target) n e =
      (.ok (pureGo (fun m => decide (w m ≥ target)) n 0 n), e) :=
    searchGo_pure _ _ e n hfp n 0 n (le_refl n)
  have hrle := pureGo_le (fun m => decide (w m ≥ target)) n 0 n (Nat.zero_le n)
  have monoP : ∀ a b, a ≤ b → b < n →
      decide (w a ≥ target) = true → decide (w b ≥ target) = true := by
    intro a b hab hb hpa
    have h1 : w a ≥ target := of_decide_eq_true hpa
    have h2 := mono a b hab hb
    exact decide_eq_true_eq.mpr (le_trans h1 h2)
  have hfalse : ∀ k, k < pureGo (fun m => decide (w m ≥ target)) n 0 n →
      decide (w k ≥ target) = false :=
    fun k hk => pureGo_false _ n 0 n (by omega) monoP k (Nat.zero_le k) hk
  have htrue : pureGo (fun m => decide (w m ≥ target)) n 0 n < n →
      decide (w (pureGo (fun m => decide (w m ≥ target)) n 0 n) ≥ target) = true :=
    fun h => pureGo_true _ n 0 n (by omega) (Nat.zero_le n) h
  constructor
  · intro i hi hit hleast
    have hpi : decide (w i ≥ target) = true := decide_eq_true_eq.mpr (le_of_eq hit.symm)
    have hri : pureGo (fun m => decide (w m ≥ target)) n 0 n ≤ i := by
      by_contra hc
      push_neg at hc
      have hx := hfalse i hc
      rw [hpi] at hx
      cases hx
    have hreq : pureGo (fun m => decide (w m ≥ target)) n 0 n = i := by
      rcases lt_or_eq_of_le hri with hc | hc
      · exfalso
        have hrn : pureGo (fun m => decide (w m ≥ target)) n 0 n < n := lt_trans hc hi
        have hptrue := htrue hrn
        have hlt := hleast _ hc
        have : decide (w (pureGo (fun m => decide (w m ≥ target)) n 0 n) ≥ target) = false := by
          simpa using Nat.not_le.mpr hlt
        rw [hptrue] at this
        cases this
      · exact hc
    unfold findCheckpointByWeight
    dsimp only
    rw [← hss, ← hn, hsearch, hreq]
    dsimp only
    have hne : ¬ i = n := by omega
    rw [if_neg hne, hw i hi]
    dsimp only
    have hok : ¬ w i ≠ target := by simpa using hit
    rw [if_neg hok]
  · intro hnone
    unfold findCheckpointByWeight
    dsimp only
    rw [← hss, ← hn, hsearch]
    dsimp only
    by_cases hrn : pureGo (fun m => decide (w m ≥ target)) n 0 n = n
    · rw [if_pos hrn]
    · rw [if_neg hrn]
      have hlt : pureGo (fun m => decide (w m ≥ target)) n 0 n < n :=
        lt_of_le_of_ne hrle.2 hrn
      rw [hw _ hlt]
      dsimp only
      have hne := hnone _ hlt
      rw [if_pos hne]

/-- Witness for C4: the spec's S5 scenario — committed at number 0,
finality 0, round-end weights `[1, 1, 2, 3, 3]` for the five rounds below
parent block 19, target 3: the result is the id at block 12, the start of
round 4, the earliest round whose weight is 3. -/
theorem findCheckpointByWeight_search_spec_witness :
    (∀ i, i < 5 → roundEndWeight exEnvW ⟨19, 0⟩ 0 exEW i = (.ok (exW i), exEW)) ∧
    (∀ a b, a ≤ b → b < 5 → exW a ≤ exW b) ∧
    findCheckpointByWeight exEnvW exEW 3 ⟨0, 0⟩ ⟨19, 0⟩ =
      (getBlockID exEnvW ⟨19, 0⟩ 12, exEW) ∧
    getBlockID exEnvW ⟨19, 0⟩ 12 = .ok ⟨12, 0⟩ := by
  have hw : ∀ i, i < 5 → roundEndWeight exEnvW ⟨19, 0⟩ 0 exEW i = (.ok (exW i), exEW) := by
    decide
  have mono' : ∀ b, b < 5 → ∀ a, a ≤ b → exW a ≤ exW b := by decide
  have mono : ∀ a b, a ≤ b → b < 5 → exW a ≤ exW b := fun a b hab hb => mono' b hb a hab
  have h := findCheckpointByWeight_search_spec exEnvW exEW 3 ⟨0, 0⟩ ⟨19, 0⟩ 0 5 exW
    (by decide) (by decide) hw mono
  have hres := h.1 3 (by decide) (by decide) (by decide)
  exact ⟨hw, mono, by simpa using hres, by decide⟩

/-! ### C3: what `Process` reports as newly committed -/

theorem chainIDAt_blockNumber (env : Env) :
    ∀ (fuel : Nat) (tip : Bytes32) (n : Nat) (c : Bytes32),
      chainIDAt env fuel tip n = .ok c → blockNumber c = n := by
  intro fuel
  induction fuel with
  | zero =>
    intro tip n c h
    cases h
  | succ fuel ih =>
    intro tip n c h
    unfold chainIDAt at h
    split at h
    · cases h
    · split at h
      case _ heq =>
        cases h
        exact heq
      · split at h
        · cases h
        case _ h' _ =>
          exact ih _ _ _ h

theorem getBlockID_blockNumber (env : Env) (tip : Bytes32) (n : Nat)
    (c : Bytes32) (h : getBlockID env tip n = .ok c) : blockNumber c = n :=
  chainIDAt_blockNumber env _ tip n c h

theorem computeNewCommitted_inv (env : Env) (e2 : Engine) (st : bftState)
    (header : Header) (c : Bytes32)
    (h : (computeNewCommitted env e2 st header).1 = .ok (some c)) :
    st.commitAt = some header.id ∧ st.weight > 1 ∧
    (findCheckpointByWeight env e2 (st.weight - 1)
      env.committed header.parentID).1 = .ok c := by
  unfold computeNewCommitted at h
  split at h
  case isTrue hcond =>
    split at h
    · cases h
    case _ id e3 hfind =>
      simp only at h
      cases h
      exact ⟨hcond.1, hcond.2, by rw [hfind]⟩
  case isFalse =>
    simp at h

/-- Inversion of `Process` on the newly-committed path: a non-null
`newlyCommitted` comes from the weight search at target `Weight - 1`,
after both branch-state computations succeeded and the header's commit
marker matched. -/
theorem Process_newCommitted_inv (env : Env) (e : Engine) (header : Header)
    (bb : Bool) (c : Bytes32)
    (h : (Process env e header).1 = .ok (bb, some c)) :
    ∃ st e1 bSt e2,
      getState env
        (fun id => if id = header.id then .ok header else getBlockHeader env id)
        e header.id = (.ok st, e1) ∧
      getState env (getBlockHeader env) e1 env.best.id = (.ok bSt, e2) ∧
      st.commitAt = some header.id ∧ st.weight > 1 ∧
      (findCheckpointByWeight env e2 (st.weight - 1)
        env.committed header.parentID).1 = .ok c := by
  unfold Process at h
  dsimp only at h
  split at h
  · simp at h
  · split at h
    · cases h
    · split at h
      · cases h
      case _ st e1 hst =>
        split at h
        · cases h
        case _ bSt e2 hbst =>
          split at h
          case _ er e3 hnc =>
            cases h
          case _ nc e3 hnc =>
            refine ⟨st, e1, bSt, e2, hst, hbst, ?_⟩
            have hnceq : nc = some c := by
              split at h <;>
                (simp only [Except.ok.injEq, Prod.mk.injEq] at h; exact h.2)
            subst hnceq
            exact computeNewCommitted_inv env e2 st header c (by rw [hnc])

/-- Counterexample for C3: in the fixture chain, round 1 is not
justified, so when block 10's commit finalizes weight 1 the weight search
finds round 0 — `Process` reports the newly committed checkpoint at block
number 0, not `checkpoint(header) - RoundInterval = 8 - 4 = 4`. -/
theorem process_newlyCommitted_round_cex :
    (Process (exEnvAt 10) (exPipeline 9) (exHdr 10)).1 = .ok (true, some ⟨0, 7⟩) ∧
    blockNumber (⟨0, 7⟩ : Bytes32) = 0 ∧
    (exHdr 10).number / (exEnvAt 10).roundInterval * (exEnvAt 10).roundInterval -
      (exEnvAt 10).roundInterval = 4 := by
  exact ⟨by decide, rfl, by decide⟩

/-- C3 (amended): when `Process` accepts a header and reports a non-null
`newlyCommitted`, the returned checkpoint's block number is
`searchStart + i*RoundInterval` for the smallest round index `i` whose
stored round-end weight equals `S(header).Weight - 1` — the earliest
round on the branch whose end-of-round weight equals the target, which is
the immediately preceding round only when no earlier round already
carries that weight. -/
theorem process_newlyCommitted_round (env : Env) (e : Engine) (header : Header)
    (bb : Bool) (c : Bytes32) (st : bftState) (ss n : Nat) (w : Nat → Nat)
    (hP : (Process env e header).1 = .ok (bb, some c))
    (hst : (getState env
        (fun id => if id = header.id then .ok header else getBlockHeader env id)
        e header.id).1 = .ok st)
    (hss : ss = if blockNumber env.committed = 0 then
        env.finality / env.roundInterval * env.roundInterval
      else blockNumber env.committed)
    (hn : n = (blockNumber header.parentID + 1 - ss) / env.roundInterval)
    (hw : ∀ i, i < n → roundEndWeight env header.parentID ss
        ((getState env (getBlockHeader env)
          ((getState env
            (fun id => if id = header.id then .ok header else getBlockHeader env id)
            e header.id).2)
          env.best.id).2) i =
        (.ok (w i),
         (getState env (getBlockHeader env)
          ((getState env
            (fun id => if id = header.id then .ok header else getBlockHeader env id)
            e header.id).2)
          env.best.id).2))
    (mono : ∀ a b, a ≤ b → b < n → w a ≤ w b) :
    ∃ i, i < n ∧ w i = st.weight - 1 ∧ (∀ k, k < i → w k < st.weight - 1) ∧
      blockNumber c = ss + i * env.roundInterval := by
  obtain ⟨st', e1, bSt, e2, hgs1, hgs2, hcommit, hwgt, hfind⟩ :=
    Process_newCommitted_inv env e header bb c hP
  have hsteq : st' = st := by
    rw [hgs1] at hst
    cases hst
    rfl
  rw [hsteq] at hcommit hwgt hfind
  have he1 : (getState env
      (fun id => if id = header.id then .ok header else getBlockHeader env id)
      e header.id).2 = e1 := by rw [hgs1]
  rw [he1] at hw
  have he2 : (getState env (getBlockHeader env) e1 env.best.id).2 = e2 := by
    rw [hgs2]
  rw [he2] at hw
  have spec := findCheckpointByWeight_search_spec env e2 (st.weight - 1)
    env.committed header.parentID ss n w hss hn hw mono
  by_cases hex : ∃ i, i < n ∧ w i = st.weight - 1
  · have i0lt : Nat.find hex < n := (Nat.find_spec hex).1
    have i0w : w (Nat.find hex) = st.weight - 1 := (Nat.find_spec hex).2
    have i0least : ∀ k, k < Nat.find hex → w k < st.weight - 1 := by
      intro k hk
      have hkn : k < n := lt_trans hk i0lt
      have hne : ¬ (k < n ∧ w k = st.weight - 1) := Nat.find_min hex hk
      have hle : w k ≤ w (Nat.find hex) := mono k _ (le_of_lt hk) i0lt
      rw [i0w] at hle
      rcases lt_or_eq_of_le hle with hlt | heq
      · exact hlt
      · exact absurd ⟨hkn, heq⟩ hne
    have hres := spec.1 (Nat.find hex) i0lt i0w i0least
    rw [hres] at hfind
    exact ⟨Nat.find hex, i0lt, i0w, i0least,
      getBlockID_blockNumber env header.parentID _ c hfind⟩
  · push_neg at hex
    have hres := spec.2 (by
      intro i hi
      exact hex i hi)
    rw [hres] at hfind
    cases hfind

/-- Witness for C3 (amended): in the fixture run the target weight 1 is
first reached in round 0, so the reported checkpoint is block 0. -/
theorem process_newlyCommitted_round_witness :
    (Process (exEnvAt 10) (exPipeline 9) (exHdr 10)).1 = .ok (true, some ⟨0, 7⟩) ∧
    ∃ i, i < 2 ∧ exW i = 2 - 1 ∧ (∀ k, k < i → exW k < 2 - 1) ∧
      blockNumber (⟨0, 7⟩ : Bytes32) = 0 + i * (exEnvAt 10).roundInterval := by
  have hP : (Process (exEnvAt 10) (exPipeline 9) (exHdr 10)).1 =
      .ok (true, some ⟨0, 7⟩) := by decide
  refine ⟨hP, ?_⟩
  have hmono : ∀ b, b < 2 → ∀ a, a ≤ b → exW a ≤ exW b := by decide
  exact process_newlyCommitted_round (exEnvAt 10) (exPipeline 9) (exHdr 10)
    true ⟨0, 7⟩ { weight := 2, justifyAt := some ⟨10, 0⟩, commitAt := some ⟨10, 0⟩ }
    0 2 exW hP (by decide) (by decide) (by decide) (by decide)
    (fun a b hab hb => hmono b hb a hab)

/-! ### The engine's operations never touch the in-memory voted map
(they mutate only caches and the weight store), so `GetVote` scans the
same voted map the engine started with. -/

theorem getWeight_voted (e : Engine) (id : Bytes32) :
    ((getWeight e id).2).voted = e.voted := by
  unfold getWeight
  split
  · rfl
  · split <;> rfl

theorem getMaxBlockProposers_voted (env : Env) (e : Engine) (id : Bytes32) :
    ((getMaxBlockProposers env e id).2).voted = e.voted := by
  unfold getMaxBlockProposers
  split
  · rfl
  · split <;> rfl

theorem newVoteSet_voted (env : Env) (e : Engine) (pid : Bytes32) :
    ((newVoteSet env e pid).2).voted = e.voted := by
  unfold newVoteSet
  dsimp only
  split
  · rfl
  case _ sumID hgb =>
    split
    · rfl
    · split
      case _ er e1 heq =>
        have h := getMaxBlockProposers_voted env e sumID
        rw [heq] at h
        exact h
      case _ mbp e1 heq =>
        have h1 := getMaxBlockProposers_voted env e sumID
        rw [heq] at h1
        split
        · exact h1
        · split
          case _ er e2 heq2 =>
            have h2 := getWeight_voted e1 sumID
            rw [heq2] at h2
            exact h2.trans h1
          case _ pw e2 heq2 =>
            have h2 := getWeight_voted e1 sumID
            rw [heq2] at h2
            exact h2.trans h1

theorem pickVoteSet_voted (env : Env) (e1 : Engine) (header : Header)
    (entry : Option VoteSet) :
    ((pickVoteSet env e1 header entry).2).voted = e1.voted := by
  unfold pickVoteSet
  split
  · split
    · rfl
    · split <;>
      · rename_i heq
        have h := newVoteSet_voted env e1 header.parentID
        rw [heq] at h
        exact h
  · split <;>
    · rename_i heq
      have h := newVoteSet_voted env e1 header.parentID
      rw [heq] at h
      exact h

theorem getState_voted (env : Env) (gh : Bytes32 → Except Err Header)
    (e : Engine) (blockID : Bytes32) :
    ((getState env gh e blockID).2).voted = e.voted := by
  unfold getState
  split
  · rfl
  · split
    · rfl
    · split
      · rfl
      case _ header _ =>
        split
        case _ er e2 heq =>
          have h := pickVoteSet_voted env
            { e with cacheVS := eraseA e.cacheVS header.parentID } header
            (lookupA e.cacheVS header.parentID)
          rw [heq] at h
          exact h
        case _ vs0 endN e2 heq =>
          have h := pickVoteSet_voted env
            { e with cacheVS := eraseA e.cacheVS header.parentID } header
            (lookupA e.cacheVS header.parentID)
          rw [heq] at h
          split
          · exact h
          · exact h

theorem roundEndWeight_voted (env : Env) (pid : Bytes32) (ss : Nat)
    (e : Engine) (i : Nat) :
    ((roundEndWeight env pid ss e i).2).voted = e.voted := by
  unfold roundEndWeight
  split
  · rfl
  · exact getWeight_voted e _

theorem weightProbe_voted (env : Env) (pid : Bytes32) (ss target : Nat)
    (e : Engine) (i : Nat) :
    ((weightProbe env pid ss target e i).2).voted = e.voted := by
  unfold weightProbe
  split <;>
  · rename_i heq
    have h := roundEndWeight_voted env pid ss e i
    rw [heq] at h
    exact h

theorem searchGo_voted (f : Engine → Nat → Except Err Bool × Engine)
    (hf : ∀ e i, ((f e i).2).voted = e.voted) :
    ∀ (fuel i j : Nat) (e : Engine),
      ((searchGo f fuel i j e).2).voted = e.voted := by
  intro fuel
  induction fuel with
  | zero =>
    intro i j e
    rfl
  | succ fuel ih =>
    intro i j e
    unfold searchGo
    split
    · dsimp only
      split
      case _ er e' heq =>
        have h := hf e ((i + j) / 2)
        rw [heq] at h
        exact h
      case _ e' heq =>
        have h := hf e ((i + j) / 2)
        rw [heq] at h
        exact (ih _ _ e').trans h
      case _ e' heq =>
        have h := hf e ((i + j) / 2)
        rw [heq] at h
        exact (ih _ _ e').trans h
    · rfl

theorem findCheckpointByWeight_voted (env : Env) (e : Engine) (target : Nat)
    (committed parentID : Bytes32) :
    ((findCheckpointByWeight env e target committed parentID).2).voted = e.voted := by
  unfold findCheckpointByWeight sortSearch
  dsimp only
  set ss := (if blockNumber committed = 0 then
      env.finality / env.roundInterval * env.roundInterval
    else blockNumber committed) with hssdef
  set n := (blockNumber parentID + 1 - ss) / env.roundInterval with hndef
  have hsv := searchGo_voted (weightProbe env parentID ss target)
    (fun e' i => weightProbe_voted env parentID ss target e' i)
  split
  case _ er e' heq =>
    have h := hsv n 0 n e
    rw [heq] at h
    exact h
  case _ num e' heq =>
    have h := hsv n 0 n e
    rw [heq] at h
    split
    · exact h
    · split
      case _ er e'' heq2 =>
        have h2 := roundEndWeight_voted env parentID ss e' num
        rw [heq2] at h2
        exact h2.trans h
      case _ wv e'' heq2 =>
        have h2 := roundEndWeight_voted env parentID ss e' num
        rw [heq2] at h2
        split
        · exact h2.trans h
        · exact h2.trans h

theorem recentJustified_voted (env : Env) (e : Engine) (parentID : Bytes32)
    (st : bftState) (weight : Nat) :
    ((recentJustified env e parentID st weight).2).voted = e.voted := by
  unfold recentJustified
  split
  · rfl
  · exact findCheckpointByWeight_voted env e weight env.committed parentID

/-! ### C1: the local vote policy -/

theorem votedLoop_characterization (env : Env) (R : Bytes32) (wt cnum : Nat) :
    ∀ l : List (Bytes32 × Nat),
      (∀ kv ∈ l, blockNumber kv.1 ≥ cnum →
        ∃ b, votedEntryIncluded env R kv.1 = .ok b) →
      ((votedLoop env R wt cnum l = .ok .WIT ↔
          ∃ kv ∈ l, blockNumber kv.1 ≥ cnum ∧
            votedEntryIncluded env R kv.1 = .ok false ∧ kv.2 ≥ wt - 1) ∧
       (votedLoop env R wt cnum l = .ok .COM ↔
          ¬ ∃ kv ∈ l, blockNumber kv.1 ≥ cnum ∧
            votedEntryIncluded env R kv.1 = .ok false ∧ kv.2 ≥ wt - 1)) := by
  intro l
  induction l with
  | nil =>
    intro _
    constructor
    · simp [votedLoop]
    · simp [votedLoop]
  | cons kv rest ih =>
    intro hok
    obtain ⟨ckpt, w⟩ := kv
    have hrest := ih fun kv hm hge => hok kv (List.mem_cons_of_mem _ hm) hge
    by_cases hge : blockNumber ckpt ≥ cnum
    · obtain ⟨b, hb⟩ := hok (ckpt, w) (List.mem_cons_self _ _) hge
      cases b
      · by_cases hw : w ≥ wt - 1
        · have hloop : votedLoop env R wt cnum ((ckpt, w) :: rest) = .ok .WIT := by
            rw [votedLoop, if_pos hge, hb]
            simp [hw]
          refine ⟨?_, ?_⟩
          · rw [hloop]
            constructor
            · intro _
              exact ⟨(ckpt, w), List.mem_cons_self _ _, hge, hb, hw⟩
            · intro _
              rfl
          · rw [hloop]
            constructor
            · intro h
              cases h
            · intro hn
              exact absurd ⟨(ckpt, w), List.mem_cons_self _ _, hge, hb, hw⟩ hn
        · have hloop : votedLoop env R wt cnum ((ckpt, w) :: rest) =
              votedLoop env R wt cnum rest := by
            rw [votedLoop, if_pos hge, hb]
            simp [hw]
          have hexiff : (∃ kv ∈ (ckpt, w) :: rest, blockNumber kv.1 ≥ cnum ∧
              votedEntryIncluded env R kv.1 = .ok false ∧ kv.2 ≥ wt - 1) ↔
              (∃ kv ∈ rest, blockNumber kv.1 ≥ cnum ∧
                votedEntryIncluded env R kv.1 = .ok false ∧ kv.2 ≥ wt - 1) := by
            constructor
            · rintro ⟨kv, hm, h1, h2, h3⟩
              rcases List.mem_cons.mp hm with heq | hm'
              · rw [heq] at h3
                exact absurd h3 hw
              · exact ⟨kv, hm', h1, h2, h3⟩
            · rintro ⟨kv, hm, h1, h2, h3⟩
              exact ⟨kv, List.mem_cons_of_mem _ hm, h1, h2, h3⟩
          rw [hloop]
          exact ⟨hrest.1.trans hexiff.symm, hrest.2.trans (not_congr hexiff).symm⟩
      · have hloop : votedLoop env R wt cnum ((ckpt, w) :: rest) =
            votedLoop env R wt cnum rest := by
          rw [votedLoop, if_pos hge, hb]
          simp
        have hexiff : (∃ kv ∈ (ckpt, w) :: rest, blockNumber kv.1 ≥ cnum ∧
            votedEntryIncluded env R kv.1 = .ok false ∧ kv.2 ≥ wt - 1) ↔
            (∃ kv ∈ rest, blockNumber kv.1 ≥ cnum ∧
              votedEntryIncluded env R kv.1 = .ok false ∧ kv.2 ≥ wt - 1) := by
          constructor
          · rintro ⟨kv, hm, h1, h2, h3⟩
            rcases List.mem_cons.mp hm with heq | hm'
            · rw [heq] at h2
              rw [hb] at h2
              cases h2
            · exact ⟨kv, hm', h1, h2, h3⟩
          · rintro ⟨kv, hm, h1, h2, h3⟩
            exact ⟨kv, List.mem_cons_of_mem _ hm, h1, h2, h3⟩
        rw [hloop]
        exact ⟨hrest.1.trans hexiff.symm, hrest.2.trans (not_congr hexiff).symm⟩
    · have hloop : votedLoop env R wt cnum ((ckpt, w) :: rest) =
          votedLoop env R wt cnum rest := by
        rw [votedLoop, if_neg hge]
      have hexiff : (∃ kv ∈ (ckpt, w) :: rest, blockNumber kv.1 ≥ cnum ∧
          votedEntryIncluded env R kv.1 = .ok false ∧ kv.2 ≥ wt - 1) ↔
          (∃ kv ∈ rest, blockNumber kv.1 ≥ cnum ∧
            votedEntryIncluded env R kv.1 = .ok false ∧ kv.2 ≥ wt - 1) := by
        constructor
        · rintro ⟨kv, hm, h1, h2, h3⟩
          rcases List.mem_cons.mp hm with heq | hm'
          · rw [heq] at h1
            exact absurd h1 hge
          · exact ⟨kv, hm', h1, h2, h3⟩
        · rintro ⟨kv, hm, h1, h2, h3⟩
          exact ⟨kv, List.mem_cons_of_mem _ hm, h1, h2, h3⟩
      rw [hloop]
      exact ⟨hrest.1.trans hexiff.symm, hrest.2.trans (not_congr hexiff).symm⟩

/-- Counterexample for C1: the node MarkVoted-ed checkpoint `C = ⟨4, 99⟩`
(a dead fork's round-1 checkpoint) with weight `W = 2`; on the main
branch the most-recent justified checkpoint `R = ⟨8, 0⟩` does not have
`C` as an ancestor and the branch weight `2 ≤ W + 1`, yet `GetVote`
returns COMMIT, not WITNESS — the entry is skipped because `C`'s block
number (4) is below the committed block's number (8), a condition the
claim's safety corollary omits. -/
theorem getVote_fork_safety_cex :
    lookupA exEB.voted ⟨4, 99⟩ = some 2 ∧
    (getState exEnvB (getBlockHeader exEnvB) exEB ⟨10, 0⟩).1 =
      .ok { weight := 2, justifyAt := some ⟨8, 0⟩, commitAt := some ⟨8, 0⟩ } ∧
    (recentJustified exEnvB
        ((getState exEnvB (getBlockHeader exEnvB) exEB ⟨10, 0⟩).2) ⟨10, 0⟩
        { weight := 2, justifyAt := some ⟨8, 0⟩, commitAt := some ⟨8, 0⟩ } 2).1 =
      .ok ⟨8, 0⟩ ∧
    hasBlock exEnvB ⟨8, 0⟩ ⟨4, 99⟩ = .ok false ∧
    (2 : Nat) ≤ 2 + 1 ∧
    (GetVote exEnvB exEB ⟨10, 0⟩).1 = .ok .COM := by
  exact ⟨by decide, by decide, by decide, by decide, by decide, by decide⟩

/-- C1 (amended): with branch state `S` of the parent of non-zero weight
and `R` the most-recent justified checkpoint as computed by the code
(this round's checkpoint when `S.JustifyAt` is set, else the weight
search), `GetVote` returns WITNESS exactly when some persisted voted
entry `(ckpt, w)` with `ckpt`'s number at or above the committed block's
number fails the ordered ancestry test (taking `(a, b)` as `(R, ckpt)`
ordered so `a` has the higher number, `b` is not on the chain through
`a`) while `w ≥ S.Weight - 1`, and COMMIT when no such entry exists.  In
particular a MarkVoted-ed checkpoint `C` with weight `W` forces WITNESS
on any branch of weight `≤ W + 1`, provided `C`'s number is at or above
the committed block's number and the ordered ancestry test against `R`
fails. -/
theorem getVote_safety_characterization (env : Env) (e : Engine)
    (parentID : Bytes32) (st : bftState) (R : Bytes32)
    (hst : (getState env (getBlockHeader env) e parentID).1 = .ok st)
    (hw0 : ¬ st.weight = 0)
    (hR : (recentJustified env ((getState env (getBlockHeader env) e parentID).2)
        parentID st st.weight).1 = .ok R)
    (hok : ∀ kv ∈ e.voted, blockNumber kv.1 ≥ blockNumber env.committed →
      ∃ b, votedEntryIncluded env R kv.1 = .ok b) :
    ((GetVote env e parentID).1 = .ok .WIT ↔
      ∃ kv ∈ e.voted, blockNumber kv.1 ≥ blockNumber env.committed ∧
        votedEntryIncluded env R kv.1 = .ok false ∧ kv.2 ≥ st.weight - 1) ∧
    ((GetVote env e parentID).1 = .ok .COM ↔
      ¬ ∃ kv ∈ e.voted, blockNumber kv.1 ≥ blockNumber env.committed ∧
        votedEntryIncluded env R kv.1 = .ok false ∧ kv.2 ≥ st.weight - 1) ∧
    (∀ C W, (C, W) ∈ e.voted → blockNumber C ≥ blockNumber env.committed →
      votedEntryIncluded env R C = .ok false → st.weight ≤ W + 1 →
      (GetVote env e parentID).1 = .ok .WIT) := by
  rcases hgs : getState env (getBlockHeader env) e parentID with ⟨v1, e1⟩
  rw [hgs] at hst hR
  dsimp only at hst hR
  subst hst
  rcases hrj : recentJustified env e1 parentID st st.weight with ⟨v2, e2⟩
  rw [hrj] at hR
  dsimp only at hR
  subst hR
  have hv1 : e1.voted = e.voted := by
    have h := getState_voted env (getBlockHeader env) e parentID
    rw [hgs] at h
    exact h
  have hv2 : e2.voted = e.voted := by
    have h := recentJustified_voted env e1 parentID st st.weight
    rw [hrj] at h
    exact h.trans hv1
  have hGV : GetVote env e parentID =
      (votedLoop env R st.weight (blockNumber env.committed) e.voted, e2) := by
    unfold GetVote
    rw [hgs]
    dsimp only
    rw [if_neg hw0, hrj]
    dsimp only
    rw [hv2]
  have hchar := votedLoop_characterization env R st.weight
    (blockNumber env.committed) e.voted hok
  refine ⟨?_, ?_, ?_⟩
  · rw [hGV]
    exact hchar.1
  · rw [hGV]
    exact hchar.2
  · intro C W hm hge hinc hle
    rw [hGV]
    exact hchar.1.mpr ⟨(C, W), hm, hge, hinc, by omega⟩

/-- Witness for C1 (amended): the node previously voted for the
conflicting round-2 checkpoint `⟨8, 77⟩` with weight 2; on the main
branch (weight 2, `R = ⟨8, 0⟩`) the ordered ancestry test fails, so
`GetVote` returns WITNESS. -/
theorem getVote_safety_characterization_witness :
    (⟨⟨8, 77⟩, 2⟩ : Bytes32 × Nat) ∈ exED.voted ∧
    votedEntryIncluded exEnvD ⟨8, 0⟩ ⟨8, 77⟩ = .ok false ∧
    (GetVote exEnvD exED ⟨10, 0⟩).1 = .ok .WIT := by
  have hok : ∀ kv ∈ exED.voted,
      blockNumber kv.1 ≥ blockNumber exEnvD.committed →
      ∃ b, votedEntryIncluded exEnvD ⟨8, 0⟩ kv.1 = .ok b := by
    intro kv hm _
    have : kv = (⟨8, 77⟩, 2) := by
      simpa [exED, exEB] using hm
    rw [this]
    exact ⟨false, by decide⟩
  have h := getVote_safety_characterization exEnvD exED ⟨10, 0⟩
    { weight := 2, justifyAt := some ⟨8, 0⟩, commitAt := some ⟨8, 0⟩ } ⟨8, 0⟩
    (by decide) (by decide) (by decide) hok
  refine ⟨by decide, by decide, ?_⟩
  exact h.2.2 ⟨8, 77⟩ 2 (by decide) (by decide) (by decide) (by decide)

/-! ### C2: threshold strictness of the vote set -/

theorem findVote_none_not_mem :
    ∀ (v : List (Nat × Bool)) (s : Nat), findVote v s = none →
      s ∉ v.map Prod.fst := by
  intro v
  induction v with
  | nil =>
    intro s _ h
    simp at h
  | cons kv rest ih =>
    intro s hf
    obtain ⟨k, b⟩ := kv
    unfold findVote at hf
    by_cases hk : k = s
    · rw [if_pos hk] at hf
      cases hf
    · rw [if_neg hk] at hf
      intro hmem
      rcases List.mem_cons.mp hmem with heq | hmem'
      · exact hk (by simpa using heq.symm)
      · exact ih s hf hmem'

theorem findVote_some_pair :
    ∀ (v : List (Nat × Bool)) (s : Nat) (b : Bool), findVote v s = some b →
      (s, b) ∈ v := by
  intro v
  induction v with
  | nil =>
    intro s b h
    cases h
  | cons kv rest ih =>
    intro s b hf
    obtain ⟨k, x⟩ := kv
    unfold findVote at hf
    by_cases hk : k = s
    · rw [if_pos hk] at hf
      cases hf
      rw [hk]
      exact List.mem_cons_self _ _
    · rw [if_neg hk] at hf
      exact List.mem_cons_of_mem _ (ih s b hf)

theorem setVote_map_fst :
    ∀ (v : List (Nat × Bool)) (s : Nat) (b x : Bool), findVote v s = some x →
      (setVote v s b).map Prod.fst = v.map Prod.fst := by
  intro v
  induction v with
  | nil =>
    intro s b x h
    cases h
  | cons kv rest ih =>
    intro s b x hf
    obtain ⟨k, y⟩ := kv
    unfold findVote at hf
    unfold setVote
    by_cases hk : k = s
    · rw [if_pos hk]
      simp
    · rw [if_neg hk] at hf
      rw [if_neg hk]
      simp [ih s b x hf]

theorem setVote_filter_true_len :
    ∀ (v : List (Nat × Bool)) (s : Nat), findVote v s = some false →
      ((setVote v s true).filter Prod.snd).length =
        (v.filter Prod.snd).length + 1 := by
  intro v
  induction v with
  | nil =>
    intro s h
    cases h
  | cons kv rest ih =>
    intro s hf
    obtain ⟨k, y⟩ := kv
    unfold findVote at hf
    unfold setVote
    by_cases hk : k = s
    · rw [if_pos hk] at hf
      rw [if_pos hk]
      cases hf
      simp
    · rw [if_neg hk] at hf
      rw [if_neg hk]
      cases y <;> simp [ih s hf]

theorem setVote_filter_true_finset :
    ∀ (v : List (Nat × Bool)) (s : Nat), findVote v s = some false →
      (((setVote v s true).filter Prod.snd).map Prod.fst).toFinset =
        insert s ((v.filter Prod.snd).map Prod.fst).toFinset := by
  intro v
  induction v with
  | nil =>
    intro s h
    cases h
  | cons kv rest ih =>
    intro s hf
    obtain ⟨k, y⟩ := kv
    unfold findVote at hf
    unfold setVote
    by_cases hk : k = s
    · rw [if_pos hk] at hf
      rw [if_pos hk]
      cases hf
      simp [hk]
    · rw [if_neg hk] at hf
      rw [if_neg hk]
      cases y
      · simpa using ih s hf
      · simp only [List.filter_cons_of_pos, List.map_cons, List.toFinset_cons]
        rw [ih s hf]
        exact Finset.Insert.comm _ _ _

theorem updateMarkers_fields (vs : VoteSet) (bid : Bytes32) :
    (vs.updateMarkers bid).votes = vs.votes ∧
    (vs.updateMarkers bid).comVotes = vs.comVotes ∧
    (vs.updateMarkers bid).threshold = vs.threshold := by
  unfold VoteSet.updateMarkers
  dsimp only
  split <;> split <;> simp

theorem updateMarkers_justified (vs : VoteSet) (bid : Bytes32)
    (hpre : vs.justified.isSome → vs.votes.length > vs.threshold) :
    ((vs.updateMarkers bid).justified.isSome ↔
      vs.votes.length > vs.threshold) := by
  unfold VoteSet.updateMarkers
  dsimp only
  by_cases h1 : vs.justified = none ∧ vs.votes.length > vs.threshold
  · rw [if_pos h1]
    split <;> simp [h1.2]
  · rw [if_neg h1]
    have hgoal : vs.justified.isSome ↔ vs.votes.length > vs.threshold := by
      constructor
      · exact hpre
      · intro hx
        cases hjs : vs.justified with
        | none => exact absurd ⟨hjs, hx⟩ h1
        | some j => rfl
    split <;> simpa using hgoal

theorem updateMarkers_committed (vs : VoteSet) (bid : Bytes32)
    (hpre : vs.committed.isSome → vs.comVotes > vs.threshold) :
    ((vs.updateMarkers bid).committed.isSome ↔
      vs.comVotes > vs.threshold) := by
  unfold VoteSet.updateMarkers
  dsimp only
  by_cases h1 : vs.justified = none ∧ vs.votes.length > vs.threshold
  · rw [if_pos h1]
    dsimp only
    by_cases h2 : vs.committed = none ∧ vs.comVotes > vs.threshold
    · rw [if_pos h2]
      simp [h2.2]
    · rw [if_neg h2]
      dsimp only
      constructor
      · exact hpre
      · intro hx
        cases hcs : vs.committed with
        | none => exact absurd ⟨hcs, hx⟩ h2
        | some j => rfl
  · rw [if_neg h1]
    by_cases h2 : vs.committed = none ∧ vs.comVotes > vs.threshold
    · rw [if_pos h2]
      simp [h2.2]
    · rw [if_neg h2]
      constructor
      · exact hpre
      · intro hx
        cases hcs : vs.committed with
        | none => exact absurd ⟨hcs, hx⟩ h2
        | some j => rfl

theorem recordVote_spec (vs : VoteSet) (s : Nat) (c : Bool)
    (hnd : (vs.votes.map Prod.fst).Nodup) :
    ((vs.recordVote s c).votes.map Prod.fst).Nodup ∧
    vs.votes.length ≤ (vs.recordVote s c).votes.length ∧
    vs.comVotes ≤ (vs.recordVote s c).comVotes ∧
    (vs.recordVote s c).justified = vs.justified ∧
    (vs.recordVote s c).committed = vs.committed ∧
    (vs.recordVote s c).threshold = vs.threshold ∧
    (vs.comVotes = (vs.votes.filter Prod.snd).length →
      (vs.recordVote s c).comVotes =
        ((vs.recordVote s c).votes.filter Prod.snd).length) := by
  unfold VoteSet.recordVote
  split
  case _ hf =>
    refine ⟨?_, by simp, ?_, rfl, rfl, rfl, ?_⟩
    · rw [List.map_append]
      simp [List.nodup_append, hnd, findVote_none_not_mem _ _ hf]
    · cases c <;> simp
    · intro hcv
      rw [List.filter_append]
      cases c <;> simp [hcv]
  case _ votedCom hf =>
    by_cases hb : (!votedCom && c) = true
    · rw [if_pos hb]
      have hvc : votedCom = false := by
        cases votedCom
        · rfl
        · simp at hb
      have hct : c = true := by
        cases c
        · simp at hb
        · rfl
      rw [hvc] at hf
      have hmap := setVote_map_fst vs.votes s true false hf
      refine ⟨?_, ?_, by simp, rfl, rfl, rfl, ?_⟩
      · rw [hmap]
        exact hnd
      · dsimp only
        have h2 := congrArg List.length hmap
        simp only [List.length_map] at h2
        omega
      · intro hcv
        rw [setVote_filter_true_len vs.votes s hf, hcv]
    · rw [if_neg hb]
      exact ⟨hnd, le_refl _, le_refl _, rfl, rfl, rfl, fun hcv => hcv⟩

theorem addVote_inv (vs : VoteSet) (s : Nat) (c : Bool) (bid : Bytes32)
    (h : VSInv vs) : VSInv (vs.addVote s c bid) := by
  obtain ⟨hnd, hcv, hj, hcm⟩ := h
  unfold VoteSet.addVote
  by_cases hc : vs.isCommitted = true
  · rw [if_pos hc]
    exact ⟨hnd, hcv, hj, hcm⟩
  · rw [if_neg hc]
    obtain ⟨hnd', hlen, hcvle, hjeq, hceq, hteq, hcvf⟩ := recordVote_spec vs s c hnd
    have hfields := updateMarkers_fields (vs.recordVote s c) bid
    refine ⟨?_, ?_, ?_, ?_⟩
    · rw [hfields.1]
      exact hnd'
    · rw [hfields.2.1, hfields.1]
      exact hcvf hcv
    · rw [hfields.1, hfields.2.2]
      exact updateMarkers_justified (vs.recordVote s c) bid
        (by
          rw [hjeq, hteq]
          intro hx
          exact lt_of_lt_of_le (hj.mp hx) hlen)
    · rw [hfields.2.1, hfields.2.2]
      exact updateMarkers_committed (vs.recordVote s c) bid
        (by
          rw [hceq, hteq]
          intro hx
          exact lt_of_lt_of_le (hcm.mp hx) hcvle)

theorem addVote_frozen (vs : VoteSet) (s : Nat) (c : Bool) (bid : Bytes32)
    (h : vs.committed.isSome) : vs.addVote s c bid = vs := by
  unfold VoteSet.addVote
  rw [if_pos (by simpa [VoteSet.isCommitted] using h)]

theorem addVote_committed_none (vs : VoteSet) (s : Nat) (c : Bool)
    (bid : Bytes32) (h : (vs.addVote s c bid).committed = none) :
    vs.committed = none := by
  by_contra hx
  have hs : vs.committed.isSome := Option.ne_none_iff_isSome.mp hx
  rw [addVote_frozen vs s c bid hs] at h
  rw [h] at hs
  cases hs

theorem addVote_keysets (vs : VoteSet) (s : Nat) (c : Bool) (bid : Bytes32)
    (_hnd : (vs.votes.map Prod.fst).Nodup) (hnc : vs.committed = none) :
    keyset ((vs.addVote s c bid).votes) = insert s (keyset vs.votes) ∧
    comKeyset ((vs.addVote s c bid).votes) =
      (if c then insert s (comKeyset vs.votes) else comKeyset vs.votes) := by
  unfold VoteSet.addVote
  rw [if_neg (by simp [VoteSet.isCommitted, hnc])]
  rw [(updateMarkers_fields _ bid).1]
  unfold VoteSet.recordVote
  split
  case _ hf =>
    constructor
    · unfold keyset
      rw [List.map_append, List.toFinset_append]
      simp [Finset.union_comm, Finset.insert_eq]
    · unfold comKeyset
      rw [List.filter_append]
      cases c <;> simp [Finset.union_comm, Finset.insert_eq]
  case _ votedCom hf =>
    have hsmem : s ∈ (vs.votes.map Prod.fst).toFinset := by
      rw [List.mem_toFinset, List.mem_map]
      exact ⟨(s, votedCom), findVote_some_pair _ _ _ hf, rfl⟩
    by_cases hb : (!votedCom && c) = true
    · rw [if_pos hb]
      have hvc : votedCom = false := by
        cases votedCom
        · rfl
        · simp at hb
      have hct : c = true := by
        cases c
        · simp at hb
        · rfl
      rw [hvc] at hf
      constructor
      · unfold keyset
        dsimp only
        rw [setVote_map_fst vs.votes s true false hf]
        exact (Finset.insert_eq_self.mpr hsmem).symm
      · unfold comKeyset
        dsimp only
        rw [hct, if_pos rfl]
        exact setVote_filter_true_finset vs.votes s hf
    · rw [if_neg hb]
      constructor
      · exact (Finset.insert_eq_self.mpr hsmem).symm
      · cases hc2 : c with
        | false => rfl
        | true =>
          have hvc : votedCom = true := by
            cases votedCom
            · rw [hc2] at hb
              simp at hb
            · rfl
          rw [hvc] at hf
          have : s ∈ comKeyset vs.votes := by
            unfold comKeyset
            rw [List.mem_toFinset, List.mem_map]
            refine ⟨(s, true), ?_, rfl⟩
            rw [List.mem_filter]
            exact ⟨findVote_some_pair _ _ _ hf, rfl⟩
          rw [if_pos rfl]
          exact (Finset.insert_eq_self.mpr this).symm

theorem addVote_keysets_subset (vs : VoteSet) (s : Nat) (c : Bool)
    (bid : Bytes32) (hnd : (vs.votes.map Prod.fst).Nodup) :
    keyset ((vs.addVote s c bid).votes) ⊆ insert s (keyset vs.votes) ∧
    comKeyset ((vs.addVote s c bid).votes) ⊆
      (if c then insert s (comKeyset vs.votes) else comKeyset vs.votes) := by
  cases hnc : vs.committed with
  | some j =>
    rw [addVote_frozen vs s c bid (by rw [hnc]; rfl)]
    refine ⟨Finset.subset_insert _ _, ?_⟩
    cases c
    · exact Finset.Subset.refl _
    · exact Finset.subset_insert _ _
  | none =>
    have h := addVote_keysets vs s c bid hnd hnc
    rw [h.1, h.2]
    exact ⟨Finset.Subset.refl _, Finset.Subset.refl _⟩

theorem msgSigners_cons (s : Nat) (c : Bool) (bid : Bytes32)
    (rest : List (Nat × Bool × Bytes32)) :
    msgSigners ((s, c, bid) :: rest) = insert s (msgSigners rest) := by
  simp [msgSigners]

theorem msgComSigners_cons_true (s : Nat) (bid : Bytes32)
    (rest : List (Nat × Bool × Bytes32)) :
    msgComSigners ((s, true, bid) :: rest) = insert s (msgComSigners rest) := by
  simp [msgComSigners]

theorem msgComSigners_cons_false (s : Nat) (bid : Bytes32)
    (rest : List (Nat × Bool × Bytes32)) :
    msgComSigners ((s, false, bid) :: rest) = msgComSigners rest := by
  simp [msgComSigners]

theorem addVote_nodup (vs : VoteSet) (s : Nat) (c : Bool) (bid : Bytes32)
    (hnd : (vs.votes.map Prod.fst).Nodup) :
    (((vs.addVote s c bid).votes).map Prod.fst).Nodup := by
  unfold VoteSet.addVote
  by_cases hc : vs.isCommitted = true
  · rw [if_pos hc]
    exact hnd
  · rw [if_neg hc]
    rw [(updateMarkers_fields _ bid).1]
    exact (recordVote_spec vs s c hnd).1

theorem runVotes_frozen (l : List (Nat × Bool × Bytes32)) (vs : VoteSet)
    (h : vs.committed.isSome) : runVotes vs l = vs := by
  induction l with
  | nil => rfl
  | cons m rest ih =>
    obtain ⟨s, c, bid⟩ := m
    rw [runVotes, addVote_frozen vs s c bid h]
    exact ih

theorem runVotes_inv (l : List (Nat × Bool × Bytes32)) :
    ∀ vs : VoteSet, VSInv vs → VSInv (runVotes vs l) := by
  induction l with
  | nil =>
    intro vs h
    exact h
  | cons m rest ih =>
    intro vs h
    obtain ⟨s, c, bid⟩ := m
    rw [runVotes]
    exact ih _ (addVote_inv vs s c bid h)

theorem runVotes_nodup (l : List (Nat × Bool × Bytes32)) :
    ∀ vs : VoteSet, (vs.votes.map Prod.fst).Nodup →
      (((runVotes vs l).votes).map Prod.fst).Nodup := by
  induction l with
  | nil =>
    intro vs h
    exact h
  | cons m rest ih =>
    intro vs h
    obtain ⟨s, c, bid⟩ := m
    rw [runVotes]
    exact ih _ (addVote_nodup vs s c bid h)

theorem runVotes_keysets (l : List (Nat × Bool × Bytes32)) :
    ∀ vs : VoteSet, (vs.votes.map Prod.fst).Nodup →
      (runVotes vs l).committed = none →
      keyset ((runVotes vs l).votes) = keyset vs.votes ∪ msgSigners l ∧
      comKeyset ((runVotes vs l).votes) = comKeyset vs.votes ∪ msgComSigners l := by
  induction l with
  | nil =>
    intro vs hnd hnc
    simp [runVotes, msgSigners, msgComSigners]
  | cons m rest ih =>
    intro vs hnd hnc
    obtain ⟨s, c, bid⟩ := m
    rw [runVotes] at hnc ⊢
    have hA : (vs.addVote s c bid).committed = none := by
      by_contra hx
      have hsome : (vs.addVote s c bid).committed.isSome :=
        Option.ne_none_iff_isSome.mp hx
      rw [runVotes_frozen rest _ hsome] at hnc
      rw [hnc] at hsome
      cases hsome
    have hvs : vs.committed = none := addVote_committed_none vs s c bid hA
    have hks := addVote_keysets vs s c bid hnd hvs
    have hnd' := addVote_nodup vs s c bid hnd
    have hrest := ih (vs.addVote s c bid) hnd' hnc
    rw [hrest.1, hks.1, hrest.2, hks.2]
    constructor
    · rw [msgSigners_cons, Finset.insert_union, Finset.union_insert]
    · cases c with
      | true =>
        rw [if_pos rfl, msgComSigners_cons_true, Finset.insert_union,
          Finset.union_insert]
      | false =>
        rw [if_neg (by simp), msgComSigners_cons_false]

theorem runVotes_keysets_subset (l : List (Nat × Bool × Bytes32)) :
    ∀ vs : VoteSet, (vs.votes.map Prod.fst).Nodup →
      keyset ((runVotes vs l).votes) ⊆ keyset vs.votes ∪ msgSigners l ∧
      comKeyset ((runVotes vs l).votes) ⊆ comKeyset vs.votes ∪ msgComSigners l := by
  induction l with
  | nil =>
    intro vs hnd
    constructor <;> simp [runVotes]
  | cons m rest ih =>
    intro vs hnd
    obtain ⟨s, c, bid⟩ := m
    rw [runVotes]
    have hnd' := addVote_nodup vs s c bid hnd
    have hsub := addVote_keysets_subset vs s c bid hnd
    have hrest := ih (vs.addVote s c bid) hnd'
    constructor
    · refine hrest.1.trans ?_
      refine (Finset.union_subset_union hsub.1 (Finset.Subset.refl _)).trans ?_
      rw [msgSigners_cons, Finset.insert_union, Finset.union_insert]
    · refine hrest.2.trans ?_
      refine (Finset.union_subset_union hsub.2 (Finset.Subset.refl _)).trans ?_
      cases c with
      | true =>
        rw [if_pos rfl, msgComSigners_cons_true, Finset.insert_union,
          Finset.union_insert]
      | false =>
        rw [if_neg (by simp), msgComSigners_cons_false]

theorem addVote_threshold (vs : VoteSet) (s : Nat) (c : Bool) (bid : Bytes32) :
    (vs.addVote s c bid).threshold = vs.threshold := by
  unfold VoteSet.addVote
  split
  · rfl
  · rw [(updateMarkers_fields _ bid).2.2]
    unfold VoteSet.recordVote
    split
    · rfl
    · split <;> rfl

theorem runVotes_threshold (l : List (Nat × Bool × Bytes32)) :
    ∀ vs : VoteSet, (runVotes vs l).threshold = vs.threshold := by
  induction l with
  | nil =>
    intro vs
    rfl
  | cons m rest ih =>
    intro vs
    obtain ⟨s, c, bid⟩ := m
    rw [runVotes, ih, addVote_threshold]

theorem votes_length_eq_card (v : List (Nat × Bool))
    (hnd : (v.map Prod.fst).Nodup) : v.length = (keyset v).card := by
  unfold keyset
  rw [List.toFinset_card_of_nodup hnd, List.length_map]

theorem comLen_eq_card (v : List (Nat × Bool))
    (hnd : (v.map Prod.fst).Nodup) :
    (v.filter Prod.snd).length = (comKeyset v).card := by
  have hsb : ((v.filter Prod.snd).map Prod.fst).Sublist (v.map Prod.fst) :=
    (List.filter_sublist _).map Prod.fst
  have hnd' : ((v.filter Prod.snd).map Prod.fst).Nodup := hnd.sublist hsb
  unfold comKeyset
  rw [List.toFinset_card_of_nodup hnd', List.length_map]

theorem freshVS_inv (pw cp t : Nat) : VSInv (freshVS pw cp t) := by
  refine ⟨by simp [freshVS], by simp [freshVS], ?_, ?_⟩ <;>
  · simp only [freshVS]
    constructor
    · intro h
      cases h
    · intro h
      simp at h

/-- C2: with `maxProposers = M`, a vote set's threshold is
`floor(2M/3)` (the `uint64` formula `M * 2 / 3`); every vote set
`newVoteSet` builds starts fresh; after ingesting votes from at most
`floor(2M/3)` distinct signers (any mix) the set is not justified, a
vote from a `floor(2M/3) + 1`-th distinct signer makes it justified, and
the commit marker is set exactly when the count of distinct COMMIT
voters strictly exceeds `floor(2M/3)` — both comparisons strict. -/
theorem voteSet_threshold_strictness (M pw cp : Nat) (hM : M < 2 ^ 63)
    (l : List (Nat × Bool × Bytes32)) :
    thresholdOf M = M * 2 / 3 ∧
    (∀ (env : Env) (e : Engine) (pid : Bytes32) (vs : VoteSet) (e' : Engine),
      newVoteSet env e pid = (.ok vs, e') →
      vs = freshVS vs.parentWeight vs.checkpoint vs.threshold) ∧
    ((msgSigners l).card ≤ thresholdOf M →
      (runVotes (freshVS pw cp (thresholdOf M)) l).justified = none) ∧
    ((msgSigners l).card > thresholdOf M →
      (runVotes (freshVS pw cp (thresholdOf M)) l).justified.isSome) ∧
    ((runVotes (freshVS pw cp (thresholdOf M)) l).committed.isSome ↔
      (msgComSigners l).card > thresholdOf M) := by
  have hth : thresholdOf M = M * 2 / 3 := by
    unfold thresholdOf
    rw [Nat.mod_eq_of_lt (by omega)]
  have hfresh : ∀ (env : Env) (e : Engine) (pid : Bytes32) (vs : VoteSet)
      (e' : Engine), newVoteSet env e pid = (.ok vs, e') →
      vs = freshVS vs.parentWeight vs.checkpoint vs.threshold := by
    intro env e pid vs e' h
    obtain ⟨sumID, mbp, eM, _, _, hv, hcv', hjust, hcomm⟩ :=
      newVoteSet_threshold_inv env e pid vs e' h
    cases vs
    simp only at hv hcv' hjust hcomm
    simp [freshVS, hv, hcv', hjust, hcomm]
  have hnd0 : (((freshVS pw cp (thresholdOf M)).votes).map Prod.fst).Nodup := by
    simp [freshVS]
  have hk0 : keyset (freshVS pw cp (thresholdOf M)).votes = ∅ := by
    simp [freshVS, keyset]
  have hck0 : comKeyset (freshVS pw cp (thresholdOf M)).votes = ∅ := by
    simp [freshVS, comKeyset]
  obtain ⟨hnd, hcv, hj, hcm⟩ :=
    runVotes_inv l (freshVS pw cp (thresholdOf M)) (freshVS_inv pw cp _)
  have hthr := runVotes_threshold l (freshVS pw cp (thresholdOf M))
  have hthr' : (runVotes (freshVS pw cp (thresholdOf M)) l).threshold =
      thresholdOf M := by
    rw [hthr]
    rfl
  rw [hthr'] at hj hcm
  refine ⟨hth, hfresh, ?_, ?_, ?_⟩
  · intro hcard
    rw [← Option.not_isSome_iff_eq_none]
    intro hsome
    have hlen := hj.mp hsome
    have hle := votes_length_eq_card _ hnd
    have hsub := (runVotes_keysets_subset l (freshVS pw cp (thresholdOf M)) hnd0).1
    rw [hk0, Finset.empty_union] at hsub
    have hcle := Finset.card_le_card hsub
    omega
  · intro hcard
    by_cases hcom : (runVotes (freshVS pw cp (thresholdOf M)) l).committed = none
    · have hks := runVotes_keysets l (freshVS pw cp (thresholdOf M)) hnd0 hcom
      have hle := votes_length_eq_card _ hnd
      rw [hks.1, hk0, Finset.empty_union] at hle
      exact hj.mpr (by omega)
    · have hsome := Option.ne_none_iff_isSome.mp hcom
      have h1 := hcm.mp hsome
      have h2 := List.length_filter_le Prod.snd
        (runVotes (freshVS pw cp (thresholdOf M)) l).votes
      rw [← hcv] at h2
      exact hj.mpr (by omega)
  · constructor
    · intro hsome
      have h1 := hcm.mp hsome
      have h2 := comLen_eq_card _ hnd
      rw [← hcv] at h2
      have hsub := (runVotes_keysets_subset l (freshVS pw cp (thresholdOf M)) hnd0).2
      rw [hck0, Finset.empty_union] at hsub
      have hcle := Finset.card_le_card hsub
      omega
    · intro hcard
      by_contra hns
      have hnone : (runVotes (freshVS pw cp (thresholdOf M)) l).committed = none :=
        Option.not_isSome_iff_eq_none.mp hns
      have hks := runVotes_keysets l (freshVS pw cp (thresholdOf M)) hnd0 hnone
      have h2 := comLen_eq_card _ hnd
      rw [← hcv, hks.2, hck0, Finset.empty_union] at h2
      exact hns (hcm.mpr (by omega))

/-- Witness for C2: `M = 3` (threshold 2); two distinct signers do not
justify; a third distinct signer does; two distinct COMMIT voters do not
commit the round. -/
theorem voteSet_threshold_strictness_witness :
    thresholdOf 3 = 2 ∧
    (runVotes (freshVS 0 0 (thresholdOf 3))
      [(1, false, ⟨1, 0⟩), (2, true, ⟨2, 0⟩)]).justified = none ∧
    (runVotes (freshVS 0 0 (thresholdOf 3))
      [(1, false, ⟨1, 0⟩), (2, true, ⟨2, 0⟩), (3, true, ⟨3, 0⟩)]).justified.isSome ∧
    ¬ (runVotes (freshVS 0 0 (thresholdOf 3))
      [(1, false, ⟨1, 0⟩), (2, true, ⟨2, 0⟩), (3, true, ⟨3, 0⟩)]).committed.isSome := by
  have h2 := voteSet_threshold_strictness 3 0 0 (by omega)
    [(1, false, ⟨1, 0⟩), (2, true, ⟨2, 0⟩)]
  have h3 := voteSet_threshold_strictness 3 0 0 (by omega)
    [(1, false, ⟨1, 0⟩), (2, true, ⟨2, 0⟩), (3, true, ⟨3, 0⟩)]
  refine ⟨h2.1.trans (by norm_num), h2.2.2.1 (by decide), h3.2.2.2.1 (by decide), ?_⟩
  intro hx
  have := h3.2.2.2.2.mp hx
  revert this
  decide

end BFT
